import Mathlib

/-!
# Verification of the `webpage` repository's bibliographic core

Shallow embedding, in Lean, of the publication-formatting pipeline of the
`webpage` package: the JSON-like records returned by the ORCID API, the
`Work` record normalizer (`webpage/orcid.py`), the `TimeSpan`,
`Contribution` and HTML/LaTeX formatting helpers (`webpage/core.py`), the
`WorkList` year-grouped renderers, and the fetch-or-cache logic of the
`ORCID` client.

Python values coming out of `json.load` are modelled by the inductive
`Json`; Python exceptions (`KeyError`, `TypeError`, ...) are modelled by
`PyError`, and every fallible operation returns `Except PyError`.
-/

set_option maxHeartbeats 1000000

/-- A JSON value as produced by Python's `json` module, restricted to
integer numbers (every numeric field the `webpage` code touches is an
integer or a decimal string).  Objects keep their key/value pairs in
insertion order, as Python dicts do. -/
inductive Json where
  | null : Json
  | bool : Bool → Json
  | num : Int → Json
  | str : String → Json
  | arr : List Json → Json
  | obj : List (String × Json) → Json
deriving Inhabited

mutual

/-- Python `==` on JSON values (used where the source compares or looks up
dictionary keys that are themselves JSON values). -/
def jsonEq : Json → Json → Bool
  | .null, .null => true
  | .bool a, .bool b => a = b
  | .num a, .num b => a = b
  | .str a, .str b => a = b
  | .arr a, .arr b => jsonEqList a b
  | .obj a, .obj b => jsonEqFields a b
  | _, _ => false

/-- Elementwise `jsonEq` on lists. -/
def jsonEqList : List Json → List Json → Bool
  | [], [] => true
  | x :: xs, y :: ys => jsonEq x y && jsonEqList xs ys
  | _, _ => false

/-- Elementwise `jsonEq` on key/value lists. -/
def jsonEqFields : List (String × Json) → List (String × Json) → Bool
  | [], [] => true
  | (k, v) :: xs, (l, w) :: ys => k = l && jsonEq v w && jsonEqFields xs ys
  | _, _ => false

end

/-- The Python exceptions that the embedded code can raise. -/
inductive PyError where
  | keyError (key : String)
  | typeError
  | valueError
  | attributeError
  | assertionError
  | indexError
deriving DecidableEq, Repr

/-- First binding of `k` in an association list: Python `dict` lookup
(dicts never hold duplicate keys, so first match is the binding). -/
def lookupField (fields : List (String × Json)) (k : String) : Option Json :=
  match fields with
  | [] => none
  | (k', v) :: rest => if k' = k then some v else lookupField rest k

/-- Python subscript `item[key]` with a string key: a dict yields the value
or raises `KeyError`; any non-dict value (`None`, a list, a string, a
number) raises `TypeError`. -/
def pyGet (j : Json) (k : String) : Except PyError Json :=
  match j with
  | .obj fields =>
    match lookupField fields k with
    | some v => .ok v
    | none => .error (.keyError k)
  | _ => .error .typeError

/-- `Work._navigate(*keys, default, quiet)` (`webpage/orcid.py`): walk the
nested record one key at a time; each access is wrapped in
`try: ... except TypeError:` which returns `default`, so a shape mismatch
(subscripting a non-dict) yields the default, while a key missing from a
dict raises `KeyError`, which the `except TypeError` clause does not catch.
The `quiet` flag in the source only suppresses the warning log and does not
change the returned value, so it is not a parameter here. -/
def navigate (j : Json) (keys : List String) (default : Json) :
    Except PyError Json :=
  match keys with
  | [] => .ok j
  | k :: rest =>
    match j with
    | .obj fields =>
      match lookupField fields k with
      | some v => navigate v rest default
      | none => .error (.keyError k)
    | _ => .ok default

/-- Pure description of a fully present key chain: every step is a dict
that contains the key; yields the leaf value. -/
def navPresent (j : Json) (keys : List String) : Option Json :=
  match keys with
  | [] => some j
  | k :: rest =>
    match j with
    | .obj fields =>
      match lookupField fields k with
      | some v => navPresent v rest
      | none => none
    | _ => none

/-- The chain fails with a shape mismatch: the walk reaches a non-dict
value with at least one key still to process (every earlier step found its
key in a dict). -/
def shapeMismatch (j : Json) (keys : List String) : Bool :=
  match keys with
  | [] => false
  | k :: rest =>
    match j with
    | .obj fields =>
      match lookupField fields k with
      | some v => shapeMismatch v rest
      | none => false
    | _ => true

/-- The chain fails because a key is missing from a dict: returns the first
such key (every earlier step found its key in a dict). -/
def firstMissingKey (j : Json) (keys : List String) : Option String :=
  match keys with
  | [] => none
  | k :: rest =>
    match j with
    | .obj fields =>
      match lookupField fields k with
      | some v => firstMissingKey v rest
      | none => some k
    | _ => none

theorem navigate_present (keys : List String) :
    ∀ (j : Json) (d v : Json), navPresent j keys = some v →
      navigate j keys d = .ok v := by
  induction keys with
  | nil => intro j d v h; simp [navPresent] at h; simp [navigate, h]
  | cons k rest ih =>
    intro j d v h
    cases j with
    | obj fields =>
      simp only [navPresent] at h
      simp only [navigate]
      cases hl : lookupField fields k with
      | none => rw [hl] at h; exact absurd h (by simp)
      | some w => rw [hl] at h; exact ih w d v h
    | null => simp [navPresent] at h
    | bool b => simp [navPresent] at h
    | num n => simp [navPresent] at h
    | str s => simp [navPresent] at h
    | arr xs => simp [navPresent] at h

theorem navigate_mismatch (keys : List String) :
    ∀ (j : Json) (d : Json), shapeMismatch j keys = true →
      navigate j keys d = .ok d := by
  induction keys with
  | nil => intro j d h; simp [shapeMismatch] at h
  | cons k rest ih =>
    intro j d h
    cases j with
    | obj fields =>
      simp only [shapeMismatch] at h
      simp only [navigate]
      cases hl : lookupField fields k with
      | none => rw [hl] at h; exact absurd h (by simp)
      | some w => rw [hl] at h; exact ih w d h
    | null => simp [navigate]
    | bool b => simp [navigate]
    | num n => simp [navigate]
    | str s => simp [navigate]
    | arr xs => simp [navigate]

theorem navigate_missing (keys : List String) :
    ∀ (j : Json) (d : Json) (k : String), firstMissingKey j keys = some k →
      navigate j keys d = .error (.keyError k) := by
  induction keys with
  | nil => intro j d k h; simp [firstMissingKey] at h
  | cons k0 rest ih =>
    intro j d k h
    cases j with
    | obj fields =>
      simp only [firstMissingKey] at h
      simp only [navigate]
      cases hl : lookupField fields k0 with
      | none => rw [hl] at h; simp at h; simp [h]
      | some w => rw [hl] at h; exact ih w d k h
    | null => simp [firstMissingKey] at h
    | bool b => simp [firstMissingKey] at h
    | num n => simp [firstMissingKey] at h
    | str s => simp [firstMissingKey] at h
    | arr xs => simp [firstMissingKey] at h

/-- C1 counterexample: `Work._navigate` applied to a record in which a key
of the chain is missing from a dict *raises* `KeyError` instead of
returning the caller-supplied default: the safe-navigation contract of the
claim fails on missing keys (only shape mismatches are caught). -/
theorem navigate_missing_key_raises :
    navigate (Json.obj [("path", Json.str "/x")]) ["title"] (Json.str "DEF")
      = .error (.keyError "title") ∧
    navigate (Json.obj [("path", Json.str "/x")]) ["title"] (Json.str "DEF")
      ≠ .ok (Json.str "DEF") := by
  constructor
  · rfl
  · intro h
    exact Except.noConfusion h

/-- C1 (amended): `Work._navigate` returns the exact leaf value whenever
the whole chain is present; it returns the caller-supplied default (and
does not raise) whenever the chain fails with a shape mismatch, i.e. the
walk reaches a non-dict value; but when a key of the chain is missing from
a dict it raises `KeyError` naming the offending key, rather than
returning the default. -/
theorem navigate_amended (j : Json) (keys : List String) (d : Json) :
    (∀ v, navPresent j keys = some v → navigate j keys d = .ok v) ∧
    (shapeMismatch j keys = true → navigate j keys d = .ok d) ∧
    (∀ k, firstMissingKey j keys = some k →
      navigate j keys d = .error (.keyError k)) :=
  ⟨fun v h => navigate_present keys j d v h,
   fun h => navigate_mismatch keys j d h,
   fun k h => navigate_missing keys j d k h⟩

/-- C1 witness: the amended theorem applied at concrete inputs: a present
chain, a shape mismatch (navigating through `null`), and a missing key. -/
theorem navigate_amended_witness :
    navigate (Json.obj [("a", Json.obj [("b", Json.num 7)])]) ["a", "b"]
      Json.null = .ok (Json.num 7) ∧
    navigate (Json.obj [("a", Json.null)]) ["a", "b"] (Json.num 1)
      = .ok (Json.num 1) ∧
    navigate (Json.obj [("a", Json.obj [])]) ["a", "b"] Json.null
      = .error (.keyError "b") :=
  ⟨(navigate_amended (Json.obj [("a", Json.obj [("b", Json.num 7)])])
      ["a", "b"] Json.null).1 (Json.num 7) (by rfl),
   (navigate_amended (Json.obj [("a", Json.null)]) ["a", "b"]
      (Json.num 1)).2.1 (by rfl),
   (navigate_amended (Json.obj [("a", Json.obj [])]) ["a", "b"]
      Json.null).2.2 "b" (by rfl)⟩

/-- Strip `p` from the front of `s`, returning the remainder, or `none`
when `p` is not a prefix of `s`. -/
def stripPrefixCh : List Char → List Char → Option (List Char)
  | [], s => some s
  | _ :: _, [] => none
  | p :: ps, c :: cs => if p = c then stripPrefixCh ps cs else none

theorem stripPrefixCh_append (p s : List Char) :
    stripPrefixCh p (p ++ s) = some s := by
  induction p with
  | nil => rfl
  | cons c cs ih => simp [stripPrefixCh, ih]

theorem stripPrefixCh_length (p : List Char) :
    ∀ (s r : List Char), stripPrefixCh p s = some r → r.length ≤ s.length := by
  induction p with
  | nil =>
    intro s r h
    cases h
    exact le_rfl
  | cons c cs ih =>
    intro s r h
    cases s with
    | nil => exact Option.noConfusion h
    | cons d ds =>
      simp only [stripPrefixCh] at h
      by_cases hc : c = d
      · rw [if_pos hc] at h
        have := ih ds r h
        simp
        omega
      · rw [if_neg hc] at h
        exact Option.noConfusion h

/-- Fuel-indexed worker for Python `str.replace` (the fuel makes the
recursion structural, so that the kernel can evaluate it; the fuel is
always at least the length of the list, so it never runs out). -/
def pyReplaceFuel (pat rep : List Char) : Nat → List Char → List Char
  | _, [] => []
  | 0, s => s
  | fuel + 1, c :: cs =>
    if pat.isEmpty then c :: cs
    else
      match stripPrefixCh pat (c :: cs) with
      | some rest => rep ++ pyReplaceFuel pat rep fuel rest
      | none => c :: pyReplaceFuel pat rep fuel cs

/-- Python `s.replace(pat, rep)` on character lists: replaces every
non-overlapping occurrence of `pat`, scanning left to right.  The source
never calls `replace` with an empty pattern, so the empty pattern is mapped
to the identity here. -/
def pyReplaceL (pat rep s : List Char) : List Char :=
  pyReplaceFuel pat rep s.length s

/-- Python `str.replace` on strings. -/
def pyReplace (s pat rep : String) : String :=
  String.mk (pyReplaceL pat.data rep.data s.data)

/-- Python `s.startswith(pre)`. -/
def pyStartsWith (s pre : String) : Bool :=
  pre.data.isPrefixOf s.data

/-- Python `pat in s` substring test on character lists. -/
def isSubstring (pat : List Char) : List Char → Bool
  | [] => pat.isEmpty
  | c :: cs => pat.isPrefixOf (c :: cs) || isSubstring pat cs

/-- Fuel-indexed worker for Python `str.split` (see `pyReplaceFuel` about
the fuel). -/
def pySplitFuel (sep : List Char) : Nat → List Char → List (List Char)
  | _, [] => [[]]
  | 0, s => [s]
  | fuel + 1, c :: cs =>
    if sep.isEmpty then [c :: cs]
    else
      match stripPrefixCh sep (c :: cs) with
      | some rest => [] :: pySplitFuel sep fuel rest
      | none =>
        match pySplitFuel sep fuel cs with
        | [] => [[c]]
        | x :: xs => (c :: x) :: xs

/-- Python `s.split(sep)` with a non-empty separator, on character lists:
splits at every non-overlapping occurrence of `sep`, scanning left to
right; `''.split(sep) == ['']`.  (Python raises on an empty separator,
which the source never passes.) -/
def pySplitL (sep s : List Char) : List (List Char) :=
  pySplitFuel sep s.length s

/-- Python `s.strip(chars)`: drop the characters of `chars` from both ends. -/
def pyStripChars (chars : List Char) (s : List Char) : List Char :=
  ((s.dropWhile (chars.contains ·)).reverse.dropWhile (chars.contains ·)).reverse

/-- Decimal value of a non-empty all-digit character list, `none` otherwise. -/
def parseNatChars (s : List Char) : Option Nat :=
  if s ≠ [] ∧ s.all (·.isDigit) then
    some (s.foldl (fun acc c => acc * 10 + (c.toNat - '0'.toNat)) 0)
  else
    none

/-- Python `int(x)` on a JSON value: ints and bools pass through, strings
are stripped of surrounding whitespace and parsed as an optionally signed
decimal integer (`ValueError` otherwise); `None`, lists and dicts raise
`TypeError`. -/
def pyInt (j : Json) : Except PyError Int :=
  match j with
  | .num n => .ok n
  | .bool b => .ok (if b then 1 else 0)
  | .str s =>
    let t := (s.data.dropWhile (·.isWhitespace)).reverse.dropWhile
      (·.isWhitespace) |>.reverse
    match t with
    | '-' :: rest =>
      match parseNatChars rest with
      | some n => .ok (-(n : Int))
      | none => .error .valueError
    | '+' :: rest =>
      match parseNatChars rest with
      | some n => .ok (n : Int)
      | none => .error .valueError
    | _ =>
      match parseNatChars t with
      | some n => .ok (n : Int)
      | none => .error .valueError
  | _ => .error .typeError

/-- A Python `datetime.date`: a valid calendar date. -/
structure PyDate where
  year : Nat
  month : Nat
  day : Nat
deriving DecidableEq, Repr, Inhabited

/-- Gregorian leap year rule, as implemented by `datetime`. -/
def isLeapYear (y : Nat) : Bool :=
  y % 4 = 0 && (y % 100 ≠ 0 || y % 400 = 0)

/-- Number of days in a month. -/
def daysInMonth (y m : Nat) : Nat :=
  if m = 2 then (if isLeapYear y then 29 else 28)
  else if m = 4 ∨ m = 6 ∨ m = 9 ∨ m = 11 then 30
  else 31

/-- `datetime.date(y, m, d)`: validates the ranges (`MINYEAR = 1`,
`MAXYEAR = 9999`) and raises `ValueError` on an invalid date. -/
def mkDate (y m d : Int) : Except PyError PyDate :=
  if 1 ≤ y ∧ y ≤ 9999 ∧ 1 ≤ m ∧ m ≤ 12 ∧ 1 ≤ d ∧
      d ≤ (daysInMonth y.toNat m.toNat : Int) then
    .ok ⟨y.toNat, m.toNat, d.toNat⟩
  else
    .error .valueError

/-- `datetime.date` comparison (lexicographic on year, month, day). -/
def dateLe (a b : PyDate) : Bool :=
  a.year < b.year ∨ (a.year = b.year ∧
    (a.month < b.month ∨ (a.month = b.month ∧ a.day ≤ b.day)))

/-- Strict `datetime.date` comparison. -/
def dateLt (a b : PyDate) : Bool :=
  dateLe a b && a ≠ b

/-- `TimeSpan.str_to_date` (`webpage/core.py`):
`datetime.datetime.strptime(string, '%Y-%m-%d').date()`.  The string must
be three dash-separated decimal fields denoting a valid date, otherwise
`strptime` raises `ValueError`. -/
def strToDate (s : String) : Except PyError PyDate :=
  match (pySplitL ['-'] s.data).map parseNatChars with
  | [some y, some m, some d] => mkDate (y : Int) (m : Int) (d : Int)
  | _ => .error .valueError

/-- Full English month name, as `strftime('%B')` renders it in the C
locale. -/
def monthName (m : Nat) : String :=
  match m with
  | 1 => "January"
  | 2 => "February"
  | 3 => "March"
  | 4 => "April"
  | 5 => "May"
  | 6 => "June"
  | 7 => "July"
  | 8 => "August"
  | 9 => "September"
  | 10 => "October"
  | 11 => "November"
  | 12 => "December"
  | _ => ""

/-- Zero-padded two-digit rendering of the day, as `strftime('%d')`. -/
def twoDigit (n : Nat) : String :=
  if n < 10 then "0" ++ toString n else toString n

/-- `TimeSpan.date_to_str(date, month, year)` (`webpage/core.py`): builds
the format string `'%d'`, plus `' %B'` if `month`, plus `', %Y'` if
`year`, and renders the date with it. -/
def dateToStr (d : PyDate) (month year : Bool) : String :=
  twoDigit d.day ++ (if month then " " ++ monthName d.month else "") ++
    (if year then ", " ++ toString d.year else "")

/-- `TimeSpan` (`webpage/core.py`): a pair of dates with `end >= begin`. -/
structure TimeSpan where
  begin_date : PyDate
  end_date : PyDate
deriving DecidableEq, Repr

/-- `TimeSpan.__init__(begin, end)`: a `None` end is replaced by `begin`;
both strings are parsed with `str_to_date` and the constructor asserts
`end_date >= begin_date` (an `AssertionError` if the bounds are given
backward). -/
def timeSpanInit (b : String) (e : Option String) : Except PyError TimeSpan :=
  let eStr := match e with
    | none => b
    | some s => s
  match strToDate b with
  | .error err => .error err
  | .ok bd =>
    match strToDate eStr with
    | .error err => .error err
    | .ok ed =>
      if dateLe bd ed then .ok ⟨bd, ed⟩ else .error .assertionError

/-- `TimeSpan.is_single_day()`. -/
def isSingleDay (ts : TimeSpan) : Bool :=
  ts.begin_date = ts.end_date

/-- `TimeSpan.__format(separator)` (`webpage/core.py`): a single day is the
full begin date; otherwise the end is rendered in full and the begin keeps
month and year when the years differ, keeps the month only when the months
differ within the same year, and is the day alone when year and month both
agree. -/
def timeSpanFormat (ts : TimeSpan) (separator : String) : String :=
  if isSingleDay ts then
    dateToStr ts.begin_date true true
  else
    let endStr := dateToStr ts.end_date true true
    let beginStr :=
      if ts.begin_date.year ≠ ts.end_date.year then
        dateToStr ts.begin_date true true
      else if ts.begin_date.month ≠ ts.end_date.month then
        dateToStr ts.begin_date true false
      else
        dateToStr ts.begin_date false false
    beginStr ++ separator ++ endStr

/-- `TimeSpan.ascii()`. -/
def timeSpanAscii (ts : TimeSpan) : String :=
  timeSpanFormat ts "--"

/-- `TimeSpan.html()`. -/
def timeSpanHtml (ts : TimeSpan) : String :=
  timeSpanFormat ts "&ndash;"

/-- `TimeSpan.latex()`. -/
def timeSpanLatex (ts : TimeSpan) : String :=
  timeSpanFormat ts "--"

/-- `Contribution` (`webpage/core.py`): a talk or poster at a conference. -/
structure Contribution where
  title : String
  invited : Bool
  poster : Bool
  notes : Option String
deriving DecidableEq, Repr

/-- Python truthiness of the optional `notes` string (`if self.notes:`):
`None` and the empty string are falsy. -/
def notesTruthy (notes : Option String) : Bool :=
  match notes with
  | none => false
  | some s => s ≠ ""

/-- `Contribution.ascii()`: the title, then exactly one of the notes, the
"(invited talk)" marker or the "(poster)" marker, in that priority. -/
def contributionAscii (c : Contribution) : String :=
  let text := c.title
  if notesTruthy c.notes then
    text ++ " (" ++ c.notes.getD "" ++ ")"
  else if c.invited then
    text ++ " (invited talk)"
  else if c.poster then
    text ++ " (poster)"
  else
    text

/-- `Contribution.html()`. -/
def contributionHtml (c : Contribution) : String :=
  let text := "<em>\"" ++ c.title ++ "\"</em>"
  if notesTruthy c.notes then
    text ++ " (<b>" ++ c.notes.getD "" ++ "</b>)"
  else if c.invited then
    text ++ " (<b>invited talk</b>)"
  else if c.poster then
    text ++ " (poster)"
  else
    text

/-- `Contribution.latex()`. -/
def contributionLatex (c : Contribution) : String :=
  let text := "\"\\emph\x7b" ++ c.title ++ "\x7d\""
  if notesTruthy c.notes then
    text ++ " (\x7b\\bfseries " ++ c.notes.getD "" ++ "\x7d)"
  else if c.invited then
    text ++ " (\x7b\\bfseries invited talk\x7d)"
  else if c.poster then
    text ++ " (poster)"
  else
    text

/-- The TimeSpan granularity tie-break, written from the specification: if
begin equals end, the full begin date; otherwise the end in full, and the
begin with month and year when the years differ, with month but no year
when only the months differ, and as day only when year and month agree. -/
def timeSpanFormatSpec (ts : TimeSpan) (separator : String) : String :=
  if ts.begin_date = ts.end_date then
    dateToStr ts.begin_date true true
  else
    (if ts.begin_date.year ≠ ts.end_date.year then
      dateToStr ts.begin_date true true
    else if ts.begin_date.month ≠ ts.end_date.month then
      dateToStr ts.begin_date true false
    else
      dateToStr ts.begin_date false false) ++ separator ++
      dateToStr ts.end_date true true

/-- C5: `TimeSpan.__format` follows the granularity tie-break algorithm of
the specification for every time span and separator, and renders the two
cited examples exactly: `TimeSpan('1977-04-05','1977-04-05')` as
"05 April, 1977" and `TimeSpan('2012-04-16','2012-04-17')` as
"16--17 April, 2012" with the plain separator. -/
theorem timeSpan_format_tiebreak :
    (∀ (ts : TimeSpan) (sep : String),
      timeSpanFormat ts sep = timeSpanFormatSpec ts sep) ∧
    (timeSpanInit "1977-04-05" (some "1977-04-05")).map timeSpanAscii
      = .ok "05 April, 1977" ∧
    (timeSpanInit "2012-04-16" (some "2012-04-17")).map timeSpanAscii
      = .ok "16--17 April, 2012" := by
  refine ⟨fun ts sep => ?_, by rfl, by rfl⟩
  unfold timeSpanFormat timeSpanFormatSpec isSingleDay
  split_ifs <;> simp_all

theorem dateLe_antisymm (a b : PyDate) (h1 : dateLe a b = true)
    (h2 : dateLe b a = true) : a = b := by
  cases a
  cases b
  simp only [dateLe, decide_eq_true_eq] at h1 h2
  simp only [PyDate.mk.injEq]
  omega

/-- C9: `TimeSpan.__init__` rejects an end date strictly before the begin
date with an `AssertionError` at construction; single-argument
construction sets `end = begin`; and every successfully constructed
`TimeSpan` satisfies the invariant `end_date >= begin_date`. -/
theorem timeSpan_init_ordering :
    (∀ (b e : String) (bd ed : PyDate), strToDate b = .ok bd →
      strToDate e = .ok ed → dateLt ed bd = true →
      timeSpanInit b (some e) = .error .assertionError) ∧
    (∀ (b : String) (bd : PyDate), strToDate b = .ok bd →
      timeSpanInit b none = .ok ⟨bd, bd⟩) ∧
    (∀ (b : String) (e : Option String) (ts : TimeSpan),
      timeSpanInit b e = .ok ts → dateLe ts.begin_date ts.end_date = true) := by
  refine ⟨?_, ?_, ?_⟩
  · intro b e bd ed hb he hlt
    have hne : ed ≠ bd := by
      have := hlt
      simp only [dateLt, Bool.and_eq_true, decide_eq_true_eq] at this
      exact this.2
    have hle : dateLe ed bd = true := by
      simp only [dateLt, Bool.and_eq_true] at hlt
      exact hlt.1
    have hnle : dateLe bd ed = false := by
      by_contra hcon
      have : dateLe bd ed = true := by
        cases hdb : dateLe bd ed with
        | true => rfl
        | false => exact absurd hdb hcon
      exact hne (dateLe_antisymm ed bd hle this)
    simp [timeSpanInit, hb, he, hnle]
  · intro b bd hb
    have : dateLe bd bd = true := by
      cases bd
      simp [dateLe]
    simp [timeSpanInit, hb, this]
  · intro b e ts h
    have core : ∀ (s : String), timeSpanInit b (some s) = .ok ts →
        dateLe ts.begin_date ts.end_date = true := by
      intro s h
      simp only [timeSpanInit] at h
      cases hb : strToDate b with
      | error err => rw [hb] at h; exact Except.noConfusion h
      | ok bd =>
        simp only [hb] at h
        cases he : strToDate s with
        | error err => rw [he] at h; exact Except.noConfusion h
        | ok ed =>
          simp only [he] at h
          by_cases hle : dateLe bd ed = true
          · rw [if_pos hle] at h
            cases h
            exact hle
          · rw [if_neg hle] at h
            exact Except.noConfusion h
    cases e with
    | none => exact core b h
    | some s => exact core s h

/-- C9 witness: the ordering theorem applied at concrete dates: a
backward span is rejected, and a single-argument construction yields the
one-day span. -/
theorem timeSpan_init_ordering_witness :
    timeSpanInit "2020-05-01" (some "2020-04-30") = .error .assertionError ∧
    timeSpanInit "1977-04-05" none
      = .ok ⟨⟨1977, 4, 5⟩, ⟨1977, 4, 5⟩⟩ :=
  ⟨timeSpan_init_ordering.1 "2020-05-01" "2020-04-30" ⟨2020, 5, 1⟩
      ⟨2020, 4, 30⟩ (by rfl) (by rfl) (by decide),
   timeSpan_init_ordering.2.1 "1977-04-05" ⟨1977, 4, 5⟩ (by rfl)⟩

/-- C7: annotation precedence `notes > invited > poster` in every dialect:
with a non-empty notes string only the notes annotation is rendered, in
ASCII, HTML and LaTeX alike, regardless of the `invited` and `poster`
flags; with no notes, `invited` suppresses `poster`. -/
theorem contribution_notes_precedence (t s : String) (inv post : Bool)
    (h : s ≠ "") :
    contributionAscii ⟨t, inv, post, some s⟩ = t ++ " (" ++ s ++ ")" ∧
    contributionHtml ⟨t, inv, post, some s⟩
      = "<em>\"" ++ t ++ "\"</em> (<b>" ++ s ++ "</b>)" ∧
    contributionLatex ⟨t, inv, post, some s⟩
      = "\"\\emph\x7b" ++ t ++ "\x7d\" (\x7b\\bfseries " ++ s ++ "\x7d)" ∧
    contributionAscii ⟨t, true, post, none⟩ = t ++ " (invited talk)" ∧
    contributionHtml ⟨t, true, post, none⟩
      = "<em>\"" ++ t ++ "\"</em> (<b>invited talk</b>)" ∧
    contributionLatex ⟨t, true, post, none⟩
      = "\"\\emph\x7b" ++ t ++ "\x7d\" (\x7b\\bfseries invited talk\x7d)" := by
  refine ⟨?_, ?_, ?_, ?_, ?_, ?_⟩ <;>
    simp [contributionAscii, contributionHtml, contributionLatex,
      notesTruthy, h, String.append_assoc]

/-- C7 witness: a contribution with `invited=true`, `poster=true` and
notes "X" renders only the notes annotation in all three dialects. -/
theorem contribution_notes_precedence_witness :
    contributionAscii ⟨"T", true, true, some "X"⟩ = "T (X)" ∧
    contributionHtml ⟨"T", true, true, some "X"⟩
      = "<em>\"T\"</em> (<b>X</b>)" := by
  have h := contribution_notes_precedence "T" "X" true true (by decide)
  exact ⟨h.1, h.2.1⟩

mutual

/-- Python `repr` for JSON values (only exercised on scalars in practice;
shown here for totality, string escaping inside repr is not modelled). -/
def pyReprOf : Json → String
  | .null => "None"
  | .bool true => "True"
  | .bool false => "False"
  | .num n => toString n
  | .str s => "'" ++ s ++ "'"
  | .arr xs => "[" ++ pyReprList xs ++ "]"
  | .obj fs => "\x7b" ++ pyReprFields fs ++ "\x7d"

/-- Comma-joined reprs of the elements of a list. -/
def pyReprList : List Json → String
  | [] => ""
  | [x] => pyReprOf x
  | x :: xs => pyReprOf x ++ ", " ++ pyReprList xs

/-- Comma-joined `'key': value` reprs of the fields of a dict. -/
def pyReprFields : List (String × Json) → String
  | [] => ""
  | [(k, v)] => "'" ++ k ++ "': " ++ pyReprOf v
  | (k, v) :: fs => "'" ++ k ++ "': " ++ pyReprOf v ++ ", " ++ pyReprFields fs

end

/-- Python `str(x)` as used by `'{}'.format(...)` and f-strings: a string
passes through, any other value is rendered via its repr. -/
def pyStrOf (j : Json) : String :=
  match j with
  | .str s => s
  | _ => pyReprOf j

/-- Python `len(x)`: lists, strings and dicts have a length, other values
raise `TypeError`. -/
def pyLen (j : Json) : Except PyError Nat :=
  match j with
  | .arr xs => .ok xs.length
  | .str s => .ok s.length
  | .obj fs => .ok fs.length
  | _ => .error .typeError

/-- Python `for item in x`: a list yields its elements, a string yields its
characters as one-character strings, a dict yields its keys; other values
raise `TypeError`. -/
def pyIterList (j : Json) : Except PyError (List Json) :=
  match j with
  | .arr xs => .ok xs
  | .str s => .ok (s.data.map (fun c => .str (String.mk [c])))
  | .obj fs => .ok (fs.map (fun kv => Json.str kv.1))
  | _ => .error .typeError

/-- Python dict assignment `d[k] = v`: replace the value of an existing
equal key in place, or append a new binding. -/
def dictSet (d : List (Json × Json)) (k v : Json) : List (Json × Json) :=
  match d with
  | [] => [(k, v)]
  | (k', v') :: rest =>
    if jsonEq k' k then (k', v) :: rest else (k', v') :: dictSet rest k v

/-- Python `d.get(k)` with a string key on a dict with JSON keys. -/
def dictGetStr (d : List (Json × Json)) (k : String) : Option Json :=
  match d with
  | [] => none
  | (k', v) :: rest => if jsonEq k' (.str k) then some v else dictGetStr rest k

/-- `Work._date` (`webpage/orcid.py`): the year is navigated without a
default, month and day quietly default to 1, all three run through
`int(...)` and `datetime.date(...)`. -/
def workDate (j : Json) : Except PyError PyDate := do
  let yearJ ← navigate j ["publication-date", "year", "value"] .null
  let monthJ ← navigate j ["publication-date", "month", "value"] (.num 1)
  let dayJ ← navigate j ["publication-date", "day", "value"] (.num 1)
  let y ← pyInt yearJ
  let m ← pyInt monthJ
  let d ← pyInt dayJ
  mkDate y m d

/-- `Work._external_ids`: iterate the navigated `external-ids/external-id`
value and build the id-type → id-value dict; the iteration and the raw
subscripts are unguarded, so a `None` or otherwise malformed value raises. -/
def extIdStep (acc : List (Json × Json)) (item : Json) :
    Except PyError (List (Json × Json)) := do
  let v ← pyGet item "external-id-value"
  let t ← pyGet item "external-id-type"
  pure (dictSet acc t v)

/-- `Work._external_ids` (continued): the loop body
`ids[item['external-id-type']] = item['external-id-value']` as a fold. -/
def externalIds (j : Json) : Except PyError (List (Json × Json)) := do
  let ids ← navigate j ["external-ids", "external-id"] .null
  let items ← pyIterList ids
  items.foldlM extIdStep []

/-- `Work._format_credit_name`: `contributor['credit-name']['value']`. -/
def formatCreditName (contributor : Json) : Except PyError Json := do
  let cn ← pyGet contributor "credit-name"
  pyGet cn "value"

/-- One step of the generator feeding `', '.join(...)` in
`Work._author_string`: format the credit name; `str.join` raises
`TypeError` on a non-string element. -/
def creditNameStr (item : Json) : Except PyError String := do
  match (← formatCreditName item) with
  | .str s => pure s
  | _ => throw PyError.typeError

/-- `Work._author_string(max_num_authors=8)`: count the contributors
(`TypeError` from `len` is caught and counted as zero), return `''` for an
empty list, otherwise slice to the first `max_num_authors`, format each
credit name, join with `', '`, and append `' et al.'` when the full
sequence is longer than the cap. -/
def authorString (j : Json) (maxNumAuthors : Nat) : Except PyError String := do
  let contributors ← navigate j ["contributors", "contributor"] .null
  let numAuthors := match pyLen contributors with
    | .ok n => n
    | .error _ => 0
  if numAuthors = 0 then
    pure ""
  else do
    let sliced ← match contributors with
      | .arr xs => pure (Json.arr (xs.take maxNumAuthors))
      | .str s => pure (Json.str (String.mk (s.data.take maxNumAuthors)))
      | _ => throw PyError.typeError
    let items ← pyIterList sliced
    let names ← items.mapM creditNameStr
    let joined := String.intercalate ", " names
    if numAuthors > maxNumAuthors then
      pure (joined ++ " et al.")
    else
      pure joined

/-- `Work._bibtex_value(key, text)`: `None` when `key` does not occur in
the bibtex string, otherwise
`text.split(key)[-1].split(',')[0].replace(' ', '').replace('=', '').strip('={\x7d')`.
A non-string `text` raises as the corresponding Python operation would. -/
def bibtexValue (key : String) (text : Json) : Except PyError (Option String) :=
  match text with
  | .str t =>
    if isSubstring key.data t.data then
      let seg := (pySplitL key.data t.data).getLastD []
      let seg0 := (pySplitL [','] seg).headD []
      let cleaned := pyReplaceL ['='] [] (pyReplaceL [' '] [] seg0)
      .ok (some (String.mk (pyStripChars ['=', '\x7b', '\x7d'] cleaned)))
    else
      .ok none
  | .obj fs =>
    if fs.any (fun kv => kv.1 = key) then .error .attributeError else .ok none
  | .arr xs =>
    if xs.any (fun x => jsonEq x (.str key)) then .error .attributeError
    else .ok none
  | _ => .error .typeError

/-- The `{volume, number, pages}` triple extracted from a bibtex entry. -/
structure CitationData where
  volume : Option String
  number : Option String
  pages : Option String
deriving DecidableEq, Repr

/-- `Work._citation_data`: `None` when the `citation` field is absent/null
or has no `citation-type`; for a bibtex citation, extract volume, number
and pages from `citation-value`; an unknown citation type falls through to
`None` with a warning. -/
def citationData (j : Json) : Except PyError (Option CitationData) := do
  let data ← navigate j ["citation"] .null
  match data with
  | .null => pure none
  | .obj fs =>
    match (lookupField fs "citation-type").getD .null with
    | .null => pure none
    | .str cts =>
      if cts.toLower = "bibtex" then do
        let bibtex ← pyGet (Json.obj fs) "citation-value"
        let volume ← bibtexValue "volume" bibtex
        let number ← bibtexValue "number" bibtex
        let pages ← bibtexValue "pages" bibtex
        pure (some ⟨volume, number, pages⟩)
      else
        pure none
    | _ => throw PyError.attributeError
  | _ => throw PyError.attributeError

/-- `Work._citation_string(data, dash)`: assemble `Volume .../Number
.../page(s) ...` clauses, each non-leading one prefixed by `', '`; page
ranges have `--` collapsed to `-` and `-` replaced by the requested dash. -/
def citationString (data : CitationData) (dash : String) : String :=
  let text := ""
  let text := match data.volume with
    | some v => "Volume " ++ v
    | none => text
  let text := match data.number with
    | some n => text ++ ", Number " ++ n
    | none => text
  match data.pages with
  | some p =>
    let p := pyReplace p "--" "-"
    let p := if dash ≠ "-" then pyReplace p "-" dash else p
    text ++ ", page(s) " ++ p
  | none => text

/-- A normalized `Work` as built by `Work.__init__` (`webpage/orcid.py`). -/
structure Work where
  path : Json
  title : Json
  date : PyDate
  year : Nat
  type_ : Json
  journal : Json
  external_ids : List (Json × Json)
  doi : Json
  doi_url : Option String
  author_string : String
  citation_data : Option CitationData

/-- `Work._repr(title, dash)`: the citation clause is dropped when the
journal is `None`; when the assembled citation string starts with `', '`
(volume missing) *every* occurrence of `', '` in it is removed by
`str.replace`. -/
def workRepr (w : Work) (title : Option String) (dash : String) : String :=
  let t := match title with
    | some s => s
    | none => pyStrOf w.title
  match w.journal with
  | .null => w.author_string ++ ", \"" ++ t ++ "\" (" ++ toString w.year ++ ")"
  | _ =>
    let j := pyStrOf w.journal
    match w.citation_data with
    | none =>
      w.author_string ++ ", \"" ++ t ++ "\", " ++ j ++ " (" ++
        toString w.year ++ ")"
    | some data =>
      let citation := citationString data dash
      if citation = "" then
        w.author_string ++ ", \"" ++ t ++ "\", " ++ j ++ " (" ++
          toString w.year ++ ")"
      else
        let citation :=
          if pyStartsWith citation ", " then pyReplace citation ", " ""
          else citation
        w.author_string ++ ", \"" ++ t ++ "\", " ++ j ++ ", " ++ citation ++
          " (" ++ toString w.year ++ ")"

/-- `Work.__init__(json_dict)`: the two raw, unguarded accesses (`path`,
nested `title`) come first, then the date, type, journal, external ids,
DOI, author string and citation data, in source order; any raised
exception aborts construction. -/
def workInit (j : Json) : Except PyError Work := do
  let path ← pyGet j "path"
  let t1 ← pyGet j "title"
  let t2 ← pyGet t1 "title"
  let title ← pyGet t2 "value"
  let date ← workDate j
  let year := date.year
  let type_ ← navigate j ["type"] .null
  let journal ← navigate j ["journal-title", "value"] .null
  let extIds ← externalIds j
  let doi := (dictGetStr extIds "doi").getD .null
  let doiUrl := match doi with
    | .null => none
    | d => some ("https://doi.org/" ++ pyStrOf d)
  let authors ← authorString j 8
  let cit ← citationData j
  pure ⟨path, title, date, year, type_, journal, extIds, doi, doiUrl,
    authors, cit⟩

/-- `HTML.INDENT_STRING * level` prepended to the text and to every line
break in it (`HTML.indent`, `webpage/core.py`). -/
def htmlIndentText (text : String) (level : Nat) : String :=
  if level = 0 then text
  else
    let indent := String.join (List.replicate level "  ")
    indent ++ pyReplace text "\n" ("\n" ++ indent)

/-- `HTML.tag_open(tag, indent, class_, **attributes)` with the attribute
dict already flattened to a list (the modelled call sites pass at most one
attribute); note the source joins attribute fragments with `','`. -/
def tagOpen (tag : String) (indent : Nat)
    (attrs : List (String × String)) : String :=
  let attrText := String.intercalate ","
    (attrs.map (fun kv => " " ++ kv.1 ++ "=\"" ++ kv.2 ++ "\""))
  htmlIndentText ("<" ++ tag ++ attrText ++ ">") indent

/-- `HTML.tag_close(tag, indent)`. -/
def tagClose (tag : String) (indent : Nat) : String :=
  htmlIndentText ("</" ++ tag ++ ">") indent

/-- `HTML.tag(text, tag, indent, ...)`: open tag (indented), text, close
tag (not indented). -/
def htmlTag (text tag : String) (indent : Nat)
    (attrs : List (String × String)) : String :=
  tagOpen tag indent attrs ++ text ++ tagClose tag 0

/-- `HTML.list_item(text, indent, class_)`. -/
def listItem (text : String) (indent : Nat) (cls : Option String) : String :=
  htmlTag text "li" indent (match cls with
    | some c => [("class", c)]
    | none => [])

/-- `HTML.emph(text)`. -/
def htmlEmph (text : String) : String :=
  htmlTag text "em" 0 []

/-- `HTML.hyperlink(text, url)`: plain text when the url is `None`. -/
def htmlHyperlink (text : String) (url : Option String) : String :=
  match url with
  | none => text
  | some u => htmlTag text "a" 0 [("href", u)]

/-- `Work.ascii()`. -/
def workAscii (w : Work) : String :=
  workRepr w none "-"

/-- `Work.html()`: the title is emphasised and wrapped in a DOI hyperlink,
page-range dashes become `&ndash;`. -/
def workHtml (w : Work) : String :=
  workRepr w (some (htmlEmph (htmlHyperlink (pyStrOf w.title) w.doi_url)))
    "&ndash;"

/-- The shape of a well-formed ORCID contributor entry. -/
def contribTemplate (name : String) : Json :=
  .obj [("credit-name", .obj [("value", .str name)])]

/-- The shape of a well-formed ORCID external-id entry. -/
def extIdTemplate (t v : String) : Json :=
  .obj [("external-id-type", .str t), ("external-id-value", .str v)]

theorem mapM_map_ok {α β : Type} (f : α → Except PyError β)
    (g : β → α) (hg : ∀ b, f (g b) = .ok b) :
    ∀ (bs : List β), (bs.map g).mapM f = .ok bs := by
  intro bs
  induction bs with
  | nil => rfl
  | cons b rest ih =>
    simp only [List.map_cons, List.mapM_cons, hg b, ih]
    rfl

theorem authorString_of_navigate (j : Json) (names : List String)
    (maxA : Nat)
    (hnav : navigate j ["contributors", "contributor"] Json.null
      = .ok (Json.arr (names.map contribTemplate))) :
    authorString j maxA
      = .ok (if maxA < names.length then
          String.intercalate ", " (names.take maxA) ++ " et al."
        else String.intercalate ", " names) := by
  cases names with
  | nil =>
    simp [authorString, hnav, pyLen, bind, Except.bind,
      pure, Except.pure]
    rfl
  | cons n rest =>
    simp only [authorString, hnav, pyLen, pyIterList,
      List.map_cons, List.length_cons, String.reduceEq, reduceIte,
      bind, Except.bind, pure, Except.pure, List.length_map]
    rw [show (contribTemplate n :: List.map contribTemplate rest)
        = List.map contribTemplate (n :: rest) from rfl, ← List.map_take,
      mapM_map_ok creditNameStr contribTemplate (fun b => rfl)]
    rw [if_neg (Nat.succ_ne_zero rest.length)]
    simp only [gt_iff_lt]
    split_ifs with h
    · rfl
    · have hle : (n :: rest).length ≤ maxA := by
        simp only [List.length_cons]
        exact Nat.le_of_not_lt h
      rw [List.take_of_length_le hle]

/-- C6: author-list truncation: for every sequence of contributor names,
`Work._author_string` renders the first `max_num_authors` (8 by default in
the constructor) names joined with `', '`; when the full sequence is
strictly longer the literal `' et al.'` marker is appended, and when it
has `max_num_authors` or fewer names all names are rendered with no
suffix. -/
theorem author_truncation (names : List String) (maxA : Nat) :
    authorString (Json.obj [("contributors", Json.obj
      [("contributor", Json.arr (names.map contribTemplate))])]) maxA
      = .ok (if maxA < names.length then
          String.intercalate ", " (names.take maxA) ++ " et al."
        else String.intercalate ", " names) :=
  authorString_of_navigate _ names maxA rfl


/-- A raw ORCID work record with every top-level key the constructor
navigates present: path, the nested title chain, a publication date with a
year string and null month/day, a type, a journal-title field, a list of
external ids, a contributors field and a citation field. -/
def goodWorkRecord (pathV titleV typeV : Json) (yearStr : String)
    (journalF contribF citF : Json)
    (extItems : List (String × String)) : Json :=
  .obj [
    ("path", pathV),
    ("title", .obj [("title", .obj [("value", titleV)])]),
    ("publication-date", .obj [
      ("year", .obj [("value", .str yearStr)]),
      ("month", .null), ("day", .null)]),
    ("type", typeV),
    ("journal-title", journalF),
    ("external-ids", .obj [("external-id",
      .arr (extItems.map (fun tv => extIdTemplate tv.1 tv.2)))]),
    ("contributors", contribF),
    ("citation", citF)]

theorem extFold_ok (items : List (String × String)) :
    ∀ (acc : List (Json × Json)),
    ∃ d, (items.map (fun tv => extIdTemplate tv.1 tv.2)).foldlM
      extIdStep acc = Except.ok d := by
  induction items with
  | nil => intro acc; exact ⟨acc, rfl⟩
  | cons tv rest ih =>
    intro acc
    obtain ⟨d, hd⟩ := ih (dictSet acc (.str tv.1) (.str tv.2))
    refine ⟨d, ?_⟩
    simp only [List.map_cons, List.foldlM_cons]
    rw [show extIdStep acc (extIdTemplate tv.1 tv.2)
      = .ok (dictSet acc (.str tv.1) (.str tv.2)) from rfl]
    exact hd

/-- C3 (amended): `Work.__init__` fails when `title` or `path` are absent,
but missing-key failures are not limited to those two: every other
navigated top-level key must also be present (see the counterexample).
For a record that carries all the navigated top-level keys, with a
parsable year, null month/day values, a list-shaped `external-ids`, and
`journal-title`, `contributors`, `citation` fields that are null or
well-shaped, construction succeeds: null journal, null contributors and
null citation (the malformed-optional-field cases the claim describes) are
all tolerated. -/
theorem work_init_amended
    (pathV titleV typeV : Json) (yearStr : String) (y : Int)
    (journalF contribF : Json) (extItems : List (String × String))
    (hy : pyInt (Json.str yearStr) = .ok y)
    (hyr : 1 ≤ y ∧ y ≤ 9999)
    (hj : journalF = .null ∨ ∃ v, journalF = Json.obj [("value", v)])
    (hc : contribF = .null ∨
      ∃ names : List String, contribF = Json.obj [("contributor",
        Json.arr (names.map contribTemplate))]) :
    ∃ w, workInit (goodWorkRecord pathV titleV typeV yearStr journalF
      contribF Json.null extItems) = .ok w := by
  have hdate : workDate (goodWorkRecord pathV titleV typeV yearStr journalF
      contribF Json.null extItems) = .ok ⟨y.toNat, 1, 1⟩ := by
    simp only [workDate, goodWorkRecord, navigate, lookupField,
      String.reduceEq, reduceIte, bind, Except.bind, hy]
    rw [show pyInt (Json.num 1) = Except.ok 1 from rfl]
    show mkDate y 1 1 = Except.ok ⟨y.toNat, 1, 1⟩
    have hcond : 1 ≤ y ∧ y ≤ 9999 ∧ (1 : Int) ≤ 1 ∧ (1 : Int) ≤ 12 ∧
        (1 : Int) ≤ 1 ∧
        (1 : Int) ≤ (daysInMonth y.toNat (Int.toNat 1) : Int) := by
      refine ⟨hyr.1, hyr.2, by norm_num, by norm_num, by norm_num, ?_⟩
      rw [show daysInMonth y.toNat (Int.toNat 1) = 31 from rfl]
      norm_num
    rw [mkDate, if_pos hcond]
    rfl
  have hextIds := extFold_ok extItems []
  obtain ⟨dext, hext⟩ := hextIds
  have hextEq : externalIds (goodWorkRecord pathV titleV typeV yearStr
      journalF contribF Json.null extItems) = .ok dext := by
    simp only [externalIds, goodWorkRecord, navigate, lookupField,
      String.reduceEq, reduceIte, bind, Except.bind, pyIterList]
    exact hext
  have hauth : ∃ astr, authorString (goodWorkRecord pathV titleV typeV
      yearStr journalF contribF Json.null extItems) 8 = .ok astr := by
    rcases hc with hc | ⟨names, hc⟩
    · subst hc
      exact ⟨"", rfl⟩
    · subst hc
      refine ⟨_, authorString_of_navigate _ names 8 ?_⟩
      rfl
  obtain ⟨astr, hauthEq⟩ := hauth
  have hjournal : ∃ jv, navigate (goodWorkRecord pathV titleV typeV yearStr
      journalF contribF Json.null extItems) ["journal-title", "value"]
      Json.null = .ok jv := by
    rcases hj with hj | ⟨v, hj⟩
    · subst hj
      exact ⟨Json.null, rfl⟩
    · subst hj
      exact ⟨v, rfl⟩
  obtain ⟨jv, hjEq⟩ := hjournal
  have hpath : pyGet (goodWorkRecord pathV titleV typeV yearStr journalF
      contribF Json.null extItems) "path" = .ok pathV := rfl
  have ht1 : pyGet (goodWorkRecord pathV titleV typeV yearStr journalF
      contribF Json.null extItems) "title"
      = .ok (Json.obj [("title", Json.obj [("value", titleV)])]) := rfl
  have htype : navigate (goodWorkRecord pathV titleV typeV yearStr journalF
      contribF Json.null extItems) ["type"] Json.null = .ok typeV := rfl
  have hcit : citationData (goodWorkRecord pathV titleV typeV yearStr
      journalF contribF Json.null extItems) = .ok none := rfl
  simp only [workInit, bind, Except.bind, pure, Except.pure, hpath, ht1,
    hdate, htype, hjEq, hextEq, hauthEq, hcit]
  exact ⟨_, rfl⟩

/-- A raw record in which `title` and `path` are both present and
well-formed but the optional `publication-date` key is entirely absent. -/
def c3CounterRecord : Json :=
  .obj [("path", .str "/p"),
    ("title", .obj [("title", .obj [("value", .str "T")])])]

/-- C3 counterexample: a record with `title` and `path` present but the
optional `publication-date` key absent makes `Work.__init__` raise
`KeyError` (through the unguarded year navigation), so construction does
not succeed for every record in which only optional fields are missing. -/
theorem work_init_missing_optional_fatal :
    (navPresent c3CounterRecord ["path"]).isSome = true ∧
    (navPresent c3CounterRecord ["title", "title", "value"]).isSome = true ∧
    workInit c3CounterRecord = .error (.keyError "publication-date") :=
  ⟨rfl, rfl, by rfl⟩

/-- C3 witness: the amended theorem applied to a concrete record with all
navigated keys present, year "2020", and null journal, contributors and
citation. -/
theorem work_init_amended_witness :
    ∃ w, workInit (goodWorkRecord (Json.str "/p") (Json.str "T")
      (Json.str "journal-article") "2020" Json.null Json.null Json.null [])
      = .ok w :=
  work_init_amended (Json.str "/p") (Json.str "T")
    (Json.str "journal-article") "2020" 2020 Json.null Json.null []
    (by rfl) (by norm_num) (Or.inl rfl) (Or.inl rfl)


theorem stripPrefixCh_eq_some (p : List Char) :
    ∀ (s r : List Char), stripPrefixCh p s = some r ↔ s = p ++ r := by
  induction p with
  | nil =>
    intro s r
    simp [stripPrefixCh, eq_comm]
  | cons c cs ih =>
    intro s r
    cases s with
    | nil => simp [stripPrefixCh]
    | cons d ds =>
      simp only [stripPrefixCh]
      by_cases hc : c = d
      · subst hc
        rw [if_pos rfl, ih]
        simp
      · rw [if_neg hc]
        simp
        intro hd
        exact fun _ => hc hd.symm

theorem pyReplaceFuel_irrel (pat rep : List Char) (hpat : pat ≠ []) :
    ∀ (f1 : Nat) (s : List Char) (f2 : Nat), s.length ≤ f1 →
      s.length ≤ f2 →
      pyReplaceFuel pat rep f1 s = pyReplaceFuel pat rep f2 s := by
  intro f1
  induction f1 with
  | zero =>
    intro s f2 h1 _
    have : s = [] := List.eq_nil_of_length_eq_zero (Nat.le_zero.mp h1)
    subst this
    cases f2 <;> rfl
  | succ f ih =>
    intro s f2 h1 h2
    cases s with
    | nil => cases f2 <;> rfl
    | cons c cs =>
      cases f2 with
      | zero => simp at h2
      | succ g =>
        simp only [pyReplaceFuel]
        rw [if_neg (by simp [List.isEmpty_iff, hpat])]
        rw [if_neg (by simp [List.isEmpty_iff, hpat])]
        cases hs : stripPrefixCh pat (c :: cs) with
        | none =>
          dsimp only
          simp only [List.length_cons] at h1 h2
          rw [ih cs g (by omega) (by omega)]
        | some rest =>
          dsimp only
          have hlen : rest.length ≤ cs.length := by
            have := (stripPrefixCh_eq_some pat (c :: cs) rest).mp hs
            have : (c :: cs).length = pat.length + rest.length := by
              rw [this, List.length_append]
            simp only [List.length_cons] at this
            have hp1 : 1 ≤ pat.length := by
              cases pat with
              | nil => exact absurd rfl hpat
              | cons _ _ => simp
            omega
          simp only [List.length_cons] at h1 h2
          rw [ih rest g (by omega) (by omega)]

theorem pyReplaceL_nil (pat rep : List Char) : pyReplaceL pat rep [] = [] := rfl

theorem pyReplaceL_match (pat rep s : List Char) (hpat : pat ≠ []) :
    pyReplaceL pat rep (pat ++ s) = rep ++ pyReplaceL pat rep s := by
  cases pat with
  | nil => exact absurd rfl hpat
  | cons c cs =>
    show pyReplaceFuel (c :: cs) rep ((c :: cs) ++ s).length ((c :: cs) ++ s)
      = rep ++ pyReplaceFuel (c :: cs) rep s.length s
    rw [show ((c :: cs) ++ s) = c :: (cs ++ s) from rfl]
    rw [show (c :: (cs ++ s)).length = (cs ++ s).length + 1 from rfl]
    simp only [pyReplaceFuel]
    rw [if_neg (by simp)]
    rw [(stripPrefixCh_eq_some (c :: cs) (c :: (cs ++ s)) s).mpr rfl]
    dsimp only
    rw [pyReplaceFuel_irrel (c :: cs) rep (by simp) (cs ++ s).length s
      s.length (by simp) le_rfl]



theorem pyReplaceL_skip (pc : Char) (ps rep : List Char) (c : Char)
    (cs : List Char) (hc : c ≠ pc) :
    pyReplaceL (pc :: ps) rep (c :: cs) = c :: pyReplaceL (pc :: ps) rep cs := by
  show pyReplaceFuel (pc :: ps) rep (cs.length + 1) (c :: cs) = _
  simp only [pyReplaceFuel]
  rw [if_neg (by simp)]
  have hnone : stripPrefixCh (pc :: ps) (c :: cs) = none := by
    simp only [stripPrefixCh]
    rw [if_neg (fun h => hc h.symm)]
  rw [hnone]
  rfl

theorem pyReplaceL_passthrough (pc : Char) (ps rep : List Char) :
    ∀ (a s : List Char), (∀ c ∈ a, c ≠ pc) →
      pyReplaceL (pc :: ps) rep (a ++ s) = a ++ pyReplaceL (pc :: ps) rep s := by
  intro a
  induction a with
  | nil => simp
  | cons c cs ih =>
    intro s ha
    rw [List.cons_append,
      pyReplaceL_skip pc ps rep c (cs ++ s) (ha c (by simp)),
      ih s (fun x hx => ha x (by simp [hx]))]
    rfl

theorem pyReplaceL_self (pc : Char) (ps rep : List Char) (s : List Char)
    (hs : ∀ c ∈ s, c ≠ pc) :
    pyReplaceL (pc :: ps) rep s = s := by
  have h := pyReplaceL_passthrough pc ps rep s [] hs
  simpa [pyReplaceL_nil] using h

theorem pyReplaceFuel_not_mem (pat rep : List Char) (hpat : pat ≠ [])
    (c0 : Char) :
    ∀ (fuel : Nat) (s : List Char), s.length ≤ fuel → c0 ∉ s → c0 ∉ rep →
      c0 ∉ pyReplaceFuel pat rep fuel s := by
  intro fuel
  induction fuel with
  | zero =>
    intro s h1 _ _
    have : s = [] := List.eq_nil_of_length_eq_zero (Nat.le_zero.mp h1)
    subst this
    simp [pyReplaceFuel]
  | succ f ih =>
    intro s h1 hs hr
    cases s with
    | nil => simp [pyReplaceFuel]
    | cons c cs =>
      simp only [pyReplaceFuel]
      rw [if_neg (by simp [List.isEmpty_iff, hpat])]
      cases hst : stripPrefixCh pat (c :: cs) with
      | none =>
        dsimp only
        simp only [List.mem_cons, not_or]
        refine ⟨fun h => hs (by simp [h]), ?_⟩
        simp only [List.length_cons] at h1
        exact ih cs (by omega) (fun h => hs (List.mem_cons_of_mem _ h)) hr
      | some rest =>
        dsimp only
        have heq := (stripPrefixCh_eq_some pat (c :: cs) rest).mp hst
        have hrest : c0 ∉ rest := by
          intro hm
          exact hs (by rw [heq]; exact List.mem_append_right _ hm)
        have hlen : rest.length ≤ cs.length := by
          have hl : (c :: cs).length = pat.length + rest.length := by
            rw [heq, List.length_append]
          simp only [List.length_cons] at hl
          have hp1 : 1 ≤ pat.length := by
            cases pat with
            | nil => exact absurd rfl hpat
            | cons _ _ => simp
          omega
        simp only [List.mem_append, not_or]
        simp only [List.length_cons] at h1
        exact ⟨hr, ih rest (by omega) hrest hr⟩

theorem pyReplace_not_mem (pat rep s : List Char) (hpat : pat ≠ [])
    (c0 : Char) (hs : c0 ∉ s) (hr : c0 ∉ rep) :
    c0 ∉ pyReplaceL pat rep s :=
  pyReplaceFuel_not_mem pat rep hpat c0 s.length s le_rfl hs hr

theorem replace_comma_core (a b : List Char) (ha : ∀ c ∈ a, c ≠ ',')
    (hb : ∀ c ∈ b, c ≠ ',') :
    pyReplaceL [',', ' '] [] (',' :: ' ' :: (a ++ (',' :: ' ' :: b)))
      = a ++ b := by
  have h1 : (',' :: ' ' :: (a ++ (',' :: ' ' :: b)))
      = [',', ' '] ++ (a ++ ([',', ' '] ++ b)) := rfl
  rw [h1, pyReplaceL_match _ _ _ (by simp), List.nil_append,
    pyReplaceL_passthrough ',' [' '] [] a _ ha,
    pyReplaceL_match _ _ _ (by simp), List.nil_append,
    pyReplaceL_self ',' [' '] [] b hb]

/-- C10: when the citation data has no volume but both number and pages,
`Work._repr` removes every occurrence of `', '` from the assembled
citation clause (not only the leading one), so the number and pages tokens
appear concatenated with no `', '` separator in the final rendered string
(the dash- and comma-free extracted tokens keep all their characters). -/
theorem citation_without_volume (w : Work) (n p dash : String)
    (hcit : w.citation_data = some ⟨none, some n, some p⟩)
    (hj : w.journal ≠ Json.null)
    (hn : (',' : Char) ∉ n.data) (hp : (',' : Char) ∉ p.data)
    (hd : (',' : Char) ∉ dash.data) :
    workRepr w none dash
      = w.author_string ++ ", \"" ++ pyStrOf w.title ++ "\", "
        ++ pyStrOf w.journal ++ ", "
        ++ ("Number " ++ n ++ ("page(s) "
          ++ (if dash ≠ "-" then pyReplace (pyReplace p "--" "-") "-" dash
              else pyReplace p "--" "-")))
        ++ " (" ++ toString w.year ++ ")" := by
  have hp2 : (',' : Char) ∉ (if dash ≠ "-"
      then pyReplace (pyReplace p "--" "-") "-" dash
      else pyReplace p "--" "-").data := by
    have hinner : (',' : Char) ∉ (pyReplace p "--" "-").data :=
      pyReplace_not_mem _ _ _ (by simp) ',' hp (by simp)
    by_cases hdash : dash ≠ "-"
    · rw [if_pos hdash]
      exact pyReplace_not_mem _ _ _ (by simp) ',' hinner hd
    · rw [if_neg hdash]
      exact hinner
  have hdata : (citationString ⟨none, some n, some p⟩ dash).data
      = ',' :: ' ' :: (("Number ".data ++ n.data) ++ (',' :: ' ' ::
        ("page(s) ".data ++ (if dash ≠ "-"
          then pyReplace (pyReplace p "--" "-") "-" dash
          else pyReplace p "--" "-").data))) := by
    simp only [citationString]
    simp [String.data_append, List.append_assoc,
      show (", Number " : String).data
        = ',' :: ' ' :: ("Number " : String).data from rfl,
      show (", page(s) " : String).data
        = ',' :: ' ' :: ("page(s) " : String).data from rfl]
  have hne : citationString ⟨none, some n, some p⟩ dash ≠ "" := by
    intro h
    have := congrArg String.data h
    rw [hdata] at this
    exact List.noConfusion this
  have hsw : pyStartsWith (citationString ⟨none, some n, some p⟩ dash)
      ", " = true := by
    unfold pyStartsWith
    rw [hdata]
    rw [show (", " : String).data = [',', ' '] from rfl]
    simp [List.isPrefixOf]
  have hrepl : pyReplace (citationString ⟨none, some n, some p⟩ dash)
      ", " "" = "Number " ++ n ++ ("page(s) "
        ++ (if dash ≠ "-" then pyReplace (pyReplace p "--" "-") "-" dash
            else pyReplace p "--" "-")) := by
    apply String.ext
    show pyReplaceL (", " : String).data ("" : String).data
      (citationString ⟨none, some n, some p⟩ dash).data = _
    rw [hdata, show (", " : String).data = [',', ' '] from rfl,
      show ("" : String).data = [] from rfl]
    have hA : ∀ c ∈ ("Number " : String).data ++ n.data, c ≠ ',' := by
      intro c hc he
      rcases List.mem_append.mp hc with h | h
      · subst he
        exact absurd h (by decide)
      · subst he
        exact hn h
    have hB : ∀ c ∈ ("page(s) " : String).data ++ (if dash ≠ "-"
        then pyReplace (pyReplace p "--" "-") "-" dash
        else pyReplace p "--" "-").data, c ≠ ',' := by
      intro c hc he
      rcases List.mem_append.mp hc with h | h
      · subst he
        exact absurd h (by decide)
      · subst he
        exact hp2 h
    have hcore := replace_comma_core _ _ hA hB
    rw [hcore]
    simp [String.data_append, List.append_assoc]
  revert hj
  cases hjv : w.journal <;> intro hj
  · exact absurd rfl hj
  all_goals
    simp only [workRepr, hcit, hjv, if_neg hne, hsw, if_pos, hrepl]

/-- C10 witness: a work with number 7 and pages 12-34 but no volume
renders its ascii citation clause as `Number 7page(s) 12-34`. -/
theorem citation_without_volume_witness :
    workRepr ⟨Json.null, Json.str "T", ⟨2019, 1, 1⟩, 2019, Json.null,
      Json.str "Proc. SPIE", [], Json.null, none, "A. One",
      some ⟨none, some "7", some "12-34"⟩⟩ none "-"
      = "A. One, \"T\", Proc. SPIE, Number 7page(s) 12-34 (2019)" :=
  (citation_without_volume ⟨Json.null, Json.str "T", ⟨2019, 1, 1⟩, 2019,
    Json.null, Json.str "Proc. SPIE", [], Json.null, none, "A. One",
    some ⟨none, some "7", some "12-34"⟩⟩ "7" "12-34" "-" rfl (by simp)
    (by decide) (by decide) (by decide)).trans (by rfl)


/-- A line of the rendered publication list, as the specification
describes it: either a year marker or a numbered item. -/
inductive WLEntry where
  | yearMarker (year : Nat)
  | item (number : Nat) (w : Work)

/-- What `WorkList._format` emits for each entry. -/
def renderWLEntry (yearFormatter : Nat → String)
    (workFormatter : Work → String) : WLEntry → String
  | .yearMarker y => yearFormatter y
  | .item num w => "[" ++ toString num ++ "] " ++ workFormatter w

/-- What `WorkList.html` emits for each entry. -/
def renderWLHtmlEntry (indent : Nat) : WLEntry → String
  | .yearMarker y => listItem (toString y) (indent + 1)
      (some "publication-year")
  | .item num w => listItem ("[" ++ toString num ++ "] " ++ workHtml w)
      (indent + 1) (some "publication-item")

/-- The loop of `WorkList._format` (`webpage/orcid.py`): `i` is the
running `enumerate` index and `cur` the `current_year` state (starting at
`None`); a year line is emitted whenever `work.year != current_year`. -/
def workListFormatAux (yearFormatter : Nat → String)
    (workFormatter : Work → String) :
    Nat → Option Nat → List Work → List String
  | _, _, [] => []
  | i, cur, w :: ws =>
    if some w.year ≠ cur then
      yearFormatter w.year
        :: ("[" ++ toString (i + 1) ++ "] " ++ workFormatter w)
        :: workListFormatAux yearFormatter workFormatter (i + 1)
            (some w.year) ws
    else
      ("[" ++ toString (i + 1) ++ "] " ++ workFormatter w)
        :: workListFormatAux yearFormatter workFormatter (i + 1) cur ws

/-- `WorkList._format(year_formatter, work_formatter)`. -/
def workListFormat (yearFormatter : Nat → String)
    (workFormatter : Work → String) (ws : List Work) : List String :=
  workListFormatAux yearFormatter workFormatter 0 none ws

/-- `WorkList.ascii()`. -/
def workListAscii (ws : List Work) : String :=
  String.intercalate "\n" (workListFormat toString workAscii ws)

/-- The explicit loop of `WorkList.html` (`webpage/orcid.py`), emitting
`li` lines with per-kind classes. -/
def workListHtmlAux (indent : Nat) : Nat → Option Nat → List Work → List String
  | _, _, [] => []
  | i, cur, w :: ws =>
    if some w.year ≠ cur then
      listItem (toString w.year) (indent + 1) (some "publication-year")
        :: listItem ("[" ++ toString (i + 1) ++ "] " ++ workHtml w)
            (indent + 1) (some "publication-item")
        :: workListHtmlAux indent (i + 1) (some w.year) ws
    else
      listItem ("[" ++ toString (i + 1) ++ "] " ++ workHtml w)
          (indent + 1) (some "publication-item")
        :: workListHtmlAux indent (i + 1) cur ws

/-- `WorkList.html(indent=4)`: a `ul` wrapper around the loop's lines,
joined with newlines. -/
def workListHtml (ws : List Work) (indent : Nat) : String :=
  String.intercalate "\n"
    (tagOpen "ul" indent [("class", "publication-list")]
      :: (workListHtmlAux indent 0 none ws ++ [tagClose "ul" indent]))

/-- The specification's view of the rendered list: one linear pass where
each item is paired with the year of the item before it (`none` for the
first); a year marker appears exactly when the two differ, and items are
numbered 1-based continuously across the whole list. -/
def wlEntriesSpec (ws : List Work) : List WLEntry :=
  ((ws.zip (none :: ws.map (fun w => some w.year))).enum).flatMap
    (fun p => (if some p.2.1.year ≠ p.2.2 then [.yearMarker p.2.1.year]
        else [])
      ++ [.item (p.1 + 1) p.2.1])

/-- A minimal work dated in the given year. -/
def mkYearWork (y : Nat) : Work :=
  ⟨.null, .null, ⟨y, 1, 1⟩, y, .null, .null, [], .null, none, "", none⟩

theorem workListFormatAux_eq (yf : Nat → String) (wf : Work → String) :
    ∀ (ws : List Work) (i : Nat) (cur : Option Nat),
      workListFormatAux yf wf i cur ws
        = ((ws.zip (cur :: ws.map (fun w => some w.year))).enumFrom i).flatMap
            (fun p => (if some p.2.1.year ≠ p.2.2 then [yf p.2.1.year]
                else [])
              ++ ["[" ++ toString (p.1 + 1) ++ "] " ++ wf p.2.1]) := by
  intro ws
  induction ws with
  | nil => intro i cur; rfl
  | cons w rest ih =>
    intro i cur
    simp only [workListFormatAux, List.map_cons, List.zip_cons_cons,
      List.enumFrom_cons, List.flatMap_cons]
    by_cases h : some w.year = cur
    · subst h
      rw [if_neg (fun hne => hne rfl), if_neg (fun hne => hne rfl)]
      simp only [List.nil_append, List.singleton_append]
      rw [ih]
    · rw [if_pos h, if_pos h]
      simp only [List.cons_append, List.singleton_append, List.nil_append]
      rw [ih]

theorem workListHtmlAux_eq (ind : Nat) :
    ∀ (ws : List Work) (i : Nat) (cur : Option Nat),
      workListHtmlAux ind i cur ws
        = ((ws.zip (cur :: ws.map (fun w => some w.year))).enumFrom i).flatMap
            (fun p => (if some p.2.1.year ≠ p.2.2 then
                [listItem (toString p.2.1.year) (ind + 1)
                  (some "publication-year")] else [])
              ++ [listItem ("[" ++ toString (p.1 + 1) ++ "] "
                  ++ workHtml p.2.1) (ind + 1)
                  (some "publication-item")]) := by
  intro ws
  induction ws with
  | nil => intro i cur; rfl
  | cons w rest ih =>
    intro i cur
    simp only [workListHtmlAux, List.map_cons, List.zip_cons_cons,
      List.enumFrom_cons, List.flatMap_cons]
    by_cases h : some w.year = cur
    · subst h
      rw [if_neg (fun hne => hne rfl), if_neg (fun hne => hne rfl)]
      simp only [List.nil_append, List.singleton_append]
      rw [ih]
    · rw [if_pos h, if_pos h]
      simp only [List.cons_append, List.singleton_append, List.nil_append]
      rw [ih]

/-- C4: both `WorkList._format` and `WorkList.html` are the rendering of
the specification's entry list: a year marker exactly when an item's year
differs from the previous item's, and continuous 1-based numbering; for
works dated 2020, 2020, 2019 exactly two year markers come out, 2020
before 2019, with items numbered 1, 2, 3. -/
theorem worklist_year_grouping :
    (∀ (yf : Nat → String) (wf : Work → String) (ws : List Work),
      workListFormat yf wf ws
        = (wlEntriesSpec ws).map (renderWLEntry yf wf)) ∧
    (∀ (ws : List Work) (ind : Nat),
      workListHtml ws ind = String.intercalate "\n"
        (tagOpen "ul" ind [("class", "publication-list")]
          :: ((wlEntriesSpec ws).map (renderWLHtmlEntry ind)
            ++ [tagClose "ul" ind]))) ∧
    workListFormat toString (fun _ => "W")
      [mkYearWork 2020, mkYearWork 2020, mkYearWork 2019]
      = ["2020", "[1] W", "[2] W", "2019", "[3] W"] := by
  refine ⟨?_, ?_, by rfl⟩
  · intro yf wf ws
    rw [workListFormat, workListFormatAux_eq, wlEntriesSpec]
    simp only [List.enum, List.map_flatMap, List.map_append, apply_ite,
      List.map_cons, List.map_nil, renderWLEntry]
  · intro ws ind
    rw [workListHtml, workListHtmlAux_eq, wlEntriesSpec]
    simp only [List.enum, List.map_flatMap, List.map_append, apply_ite,
      List.map_cons, List.map_nil, renderWLHtmlEntry]


/-- The I/O action `ORCID._load` performs for one record. -/
inductive LoadAction where
  | readFile (path : String)
  | fetchUrl (url : String) (path : String)
deriving DecidableEq, Repr

/-- `ORCID._load(url, file_path, force_fetch)` (`webpage/orcid.py`): read
the local cache file when it exists and the force flag is off, otherwise
fetch from the server (writing the file). -/
def loadAction (fileExists : String → Bool) (url filePath : String)
    (forceFetch : Bool) : LoadAction :=
  if fileExists filePath && !forceFetch then .readFile filePath
  else .fetchUrl url filePath

/-- `ORCID.BASE_URL`. -/
def BASE_URL : String := "http://pub.orcid.org"

/-- `ORCID._url(path)`: base url plus the (leading-slash) path, or
`/<orcid_id>` when no path is given. -/
def orcidUrl (orcidId : String) (path : Option String) : String :=
  BASE_URL ++ (match path with
    | none => "/" ++ orcidId
    | some p => p)

/-- `ORCID._file_path(file_name)` with the local folder abstracted (the
source computes it from the package location). -/
def orcidFilePath (localFolder orcidId : String)
    (fileName : Option String) : String :=
  localFolder ++ "/" ++ (match fileName with
    | none => orcidId ++ ".json"
    | some f => f)

/-- Python `x[0]`: first element of a list or string (`IndexError` when
empty), `KeyError` on a dict, `TypeError` otherwise. -/
def pyIndexZero (j : Json) : Except PyError Json :=
  match j with
  | .arr [] => .error .indexError
  | .arr (x :: _) => .ok x
  | .str s =>
    match s.data with
    | [] => .error .indexError
    | c :: _ => .ok (.str (String.mk [c]))
  | .obj _ => .error (.keyError "0")
  | _ => .error .typeError

/-- `ORCID.work_summary(work)`: `work['work-summary'][0]`. -/
def workSummary (work : Json) : Except PyError Json := do
  let ws ← pyGet work "work-summary"
  pyIndexZero ws

/-- The per-work `(url, file_path)` targets computed by the loop of
`ORCID.__init__`: iterate `data['activities-summary']['works']['group']`,
take each group's first work summary, and build the detail url from its
`path` and the cache file name `<id>-work-<putCode>.json`. -/
def orcidWorkItems (localFolder orcidId : String) (data : Json) :
    Except PyError (List (String × String)) := do
  let g1 ← pyGet data "activities-summary"
  let g2 ← pyGet g1 "works"
  let groups ← pyGet g2 "group"
  let gl ← pyIterList groups
  gl.mapM (fun work => do
    let summary ← workSummary work
    let path ← pyGet summary "path"
    let putCode ← pyGet summary "put-code"
    pure (orcidUrl orcidId (some (pyStrOf path)),
      orcidFilePath localFolder orcidId
        (some (orcidId ++ "-work-" ++ pyStrOf putCode ++ ".json"))))

/-- The fetch-or-read actions of `ORCID.__init__(orcid_id, force_fetch)`
given the parsed root record: the root load honours the caller's
`force_fetch`, while every per-work detail load passes the literal
`force_fetch=False` of the source. -/
def orcidInitActions (fileExists : String → Bool)
    (localFolder orcidId : String) (data : Json) (forceFetch : Bool) :
    Except PyError (LoadAction × List LoadAction) := do
  let root := loadAction fileExists (orcidUrl orcidId none)
    (orcidFilePath localFolder orcidId none) forceFetch
  let items ← orcidWorkItems localFolder orcidId data
  pure (root, items.map (fun up => loadAction fileExists up.1 up.2 false))

/-- C8: per-item fetches are never forced: the per-item actions are the
same for every value of the constructor's force flag, and each item whose
cache file exists is read locally (never fetched), while an item without a
cache file is fetched. -/
theorem per_item_fetch_never_forced (fe : String → Bool)
    (lf oid : String) (data : Json) (force : Bool) (root : LoadAction)
    (acts : List LoadAction)
    (h : orcidInitActions fe lf oid data force = .ok (root, acts)) :
    (∀ force', (orcidInitActions fe lf oid data force').map Prod.snd
        = .ok acts) ∧
    (∀ a ∈ acts, (∃ p, fe p = true ∧ a = .readFile p) ∨
      (∃ u p, fe p = false ∧ a = .fetchUrl u p)) := by
  unfold orcidInitActions at h ⊢
  cases hwi : orcidWorkItems lf oid data with
  | error err =>
    rw [hwi] at h
    exact Except.noConfusion h
  | ok items =>
    rw [hwi] at h
    simp only [bind, Except.bind, pure, Except.pure, Except.ok.injEq,
      Prod.mk.injEq] at h
    obtain ⟨-, hacts⟩ := h
    constructor
    · intro force'
      simp only [bind, Except.bind, pure, Except.pure, Except.map]
      rw [hacts]
    · intro a ha
      rw [← hacts] at ha
      obtain ⟨up, -, hup⟩ := List.mem_map.mp ha
      rw [← hup]
      unfold loadAction
      by_cases hf : fe up.2 = true
      · left
        exact ⟨up.2, hf, by simp [hf]⟩
      · right
        have hf' : fe up.2 = false := by
          cases hfe : fe up.2 with
          | true => exact absurd hfe hf
          | false => rfl
        exact ⟨up.1, up.2, hf', by simp [hf']⟩

/-- A root record with one work whose summary points at `/X/work/1`. -/
def c8Data : Json :=
  Json.obj [("activities-summary",
    Json.obj [("works",
      Json.obj [("group",
        Json.arr [
          Json.obj [("work-summary",
            Json.arr [
              Json.obj [("path", Json.str "/X/work/1"),
                ("put-code", Json.num 1)]])]])])])]

/-- C8 witness: with the per-item cache file present, the item action is a
local read even when the root fetch is forced. -/
theorem per_item_fetch_never_forced_witness :
    (orcidInitActions (fun _ => true) "orcid" "X" c8Data true).map Prod.snd
      = .ok [LoadAction.readFile "orcid/X-work-1.json"] :=
  (per_item_fetch_never_forced (fun _ => true) "orcid" "X" c8Data false
    (LoadAction.readFile "orcid/X.json")
    [LoadAction.readFile "orcid/X-work-1.json"] (by rfl)).1 true


/-- Lowercase hex digit, as Python's `json` writes `\uXXXX` escapes. -/
def hexDigitChar (n : Nat) : Char :=
  if n < 10 then Char.ofNat ('0'.toNat + n) else Char.ofNat ('a'.toNat + n - 10)

/-- A `\uXXXX` escape for a code unit. -/
def uEsc (n : Nat) : List Char :=
  ['\\', 'u', hexDigitChar (n / 4096 % 16), hexDigitChar (n / 256 % 16),
    hexDigitChar (n / 16 % 16), hexDigitChar (n % 16)]

/-- How `json.dump` (defaults: `ensure_ascii=True`) writes one character
of a string: the two-character escapes for quote, backslash and the common
control characters, `\uXXXX` (with surrogate pairs beyond the BMP) for
other control and all non-ASCII characters, and the character itself
otherwise. -/
def escapeChar (c : Char) : List Char :=
  if c = '"' then ['\\', '"']
  else if c = '\\' then ['\\', '\\']
  else if c = '\n' then ['\\', 'n']
  else if c = '\t' then ['\\', 't']
  else if c = '\r' then ['\\', 'r']
  else if c = Char.ofNat 8 then ['\\', 'b']
  else if c = Char.ofNat 12 then ['\\', 'f']
  else if c.toNat < 0x20 ∨ 0x7e < c.toNat then
    if c.toNat < 0x10000 then uEsc c.toNat
    else uEsc (0xd800 + (c.toNat - 0x10000) / 0x400)
      ++ uEsc (0xdc00 + (c.toNat - 0x10000) % 0x400)
  else [c]

/-- Escape a whole string. -/
def escapeChars (s : List Char) : List Char :=
  s.flatMap escapeChar

/-- Decimal digits of `n`, most significant first (`fuel`-driven digit
loop; the fuel always exceeds the value). -/
def natCharsAux : Nat → Nat → List Char → List Char
  | 0, _, acc => acc
  | fuel + 1, n, acc =>
    if n < 10 then Nat.digitChar (n % 10) :: acc
    else natCharsAux fuel (n / 10) (Nat.digitChar (n % 10) :: acc)

/-- Decimal digits of `n`. -/
def natChars (n : Nat) : List Char :=
  natCharsAux (n + 1) n []

/-- Decimal rendering of an integer, as `json.dump` writes Python ints. -/
def intChars (n : Int) : List Char :=
  if n < 0 then '-' :: natChars n.natAbs else natChars n.toNat

/-- A serialized object key. -/
def dumpsKey (k : String) : List Char :=
  '"' :: (escapeChars k.data ++ ['"'])

mutual

/-- `json.dump(data, file)` with the source's default arguments
(`ensure_ascii=True`, no indent, separators `', '` and `': '`), as the
bytes written to the cache file in `ORCID._fetch`. -/
def dumpsL : Json → List Char
  | .null => "null".data
  | .bool true => "true".data
  | .bool false => "false".data
  | .num n => intChars n
  | .str s => '"' :: (escapeChars s.data ++ ['"'])
  | .arr xs => '[' :: (dumpsItems xs ++ [']'])
  | .obj fs => '\x7b' :: (dumpsFields fs ++ ['\x7d'])

/-- Array elements joined with `', '`. -/
def dumpsItems : List Json → List Char
  | [] => []
  | [x] => dumpsL x
  | x :: xs => dumpsL x ++ (',' :: ' ' :: dumpsItems xs)

/-- Object fields `"key": value` joined with `', '`. -/
def dumpsFields : List (String × Json) → List Char
  | [] => []
  | [(k, v)] => dumpsKey k ++ (':' :: ' ' :: dumpsL v)
  | (k, v) :: fs =>
    dumpsKey k ++ (':' :: ' ' :: dumpsL v) ++ (',' :: ' ' :: dumpsFields fs)

end

/-- The whitespace characters `json` skips between tokens. -/
def isJsonWs (c : Char) : Bool :=
  c = ' ' || c = '\t' || c = '\n' || c = '\r'

/-- Skip whitespace. -/
def skipWs (s : List Char) : List Char :=
  s.dropWhile isJsonWs

/-- Value of a hex digit. -/
def hexVal (c : Char) : Option Nat :=
  if '0' ≤ c ∧ c ≤ '9' then some (c.toNat - '0'.toNat)
  else if 'a' ≤ c ∧ c ≤ 'f' then some (c.toNat - 'a'.toNat + 10)
  else if 'A' ≤ c ∧ c ≤ 'F' then some (c.toNat - 'A'.toNat + 10)
  else none

/-- The simple two-character escapes `json` accepts after a backslash. -/
def unescapeChar (e : Char) : Option Char :=
  if e = '"' then some '"'
  else if e = '\\' then some '\\'
  else if e = '/' then some '/'
  else if e = 'n' then some '\n'
  else if e = 't' then some '\t'
  else if e = 'r' then some '\r'
  else if e = 'b' then some (Char.ofNat 8)
  else if e = 'f' then some (Char.ofNat 12)
  else none

/-- Parse the body of a JSON string after the opening quote, returning the
decoded characters and the input after the closing quote.  (Surrogate-pair
recombination of adjacent `\uXXXX` escapes is not modelled; the source's
cache files never contain astral characters.) -/
def parseStringBody : List Char → Option (List Char × List Char)
  | [] => none
  | c :: cs =>
    if c = '"' then some ([], cs)
    else if c = '\\' then
      match cs with
      | [] => none
      | e :: cs2 =>
        if e = 'u' then
          match cs2 with
          | h1 :: h2 :: h3 :: h4 :: cs3 =>
            match hexVal h1, hexVal h2, hexVal h3, hexVal h4 with
            | some a, some b, some c4, some d =>
              match parseStringBody cs3 with
              | some (s, r) =>
                some (Char.ofNat ((((a * 16) + b) * 16 + c4) * 16 + d) :: s, r)
              | none => none
            | _, _, _, _ => none
          | _ => none
        else
          match unescapeChar e with
          | some c2 =>
            match parseStringBody cs2 with
            | some (s, r) => some (c2 :: s, r)
            | none => none
          | none => none
    else
      match parseStringBody cs with
      | some (s, r) => some (c :: s, r)
      | none => none

/-- Digit run to a value. -/
def digitsToNat (ds : List Char) : Nat :=
  ds.foldl (fun acc c => acc * 10 + (c.toNat - '0'.toNat)) 0

/-- Parse a JSON integer (optional minus sign, then a digit run).  The
fractional and exponent forms parse to floats in Python and are outside
this integer-valued model. -/
def parseNum (s : List Char) : Option (Int × List Char) :=
  match s with
  | [] => none
  | c :: cs =>
    if c = '-' then
      let ds := cs.takeWhile Char.isDigit
      let r := cs.dropWhile Char.isDigit
      if ds.isEmpty then none else some (-(digitsToNat ds : Int), r)
    else
      let ds := (c :: cs).takeWhile Char.isDigit
      let r := (c :: cs).dropWhile Char.isDigit
      if ds.isEmpty then none else some ((digitsToNat ds : Int), r)

mutual

/-- Recursive-descent JSON value parser, modelling `json.load`; the fuel
only makes the recursion structural and always exceeds what the input
needs. -/
def parseVal : Nat → List Char → Option (Json × List Char)
  | 0, _ => none
  | fuel + 1, s =>
    match skipWs s with
    | [] => none
    | c :: cs =>
      if c = 'n' then
        match cs with
        | 'u' :: 'l' :: 'l' :: r => some (.null, r)
        | _ => none
      else if c = 't' then
        match cs with
        | 'r' :: 'u' :: 'e' :: r => some (.bool true, r)
        | _ => none
      else if c = 'f' then
        match cs with
        | 'a' :: 'l' :: 's' :: 'e' :: r => some (.bool false, r)
        | _ => none
      else if c = '"' then
        match parseStringBody cs with
        | some (str, r) => some (.str (String.mk str), r)
        | none => none
      else if c = '[' then
        match skipWs cs with
        | [] => none
        | d :: ds =>
          if d = ']' then some (.arr [], ds)
          else
            match parseItems fuel cs with
            | some (vs, r) => some (.arr vs, r)
            | none => none
      else if c = '\x7b' then
        match skipWs cs with
        | [] => none
        | d :: ds =>
          if d = '\x7d' then some (.obj [], ds)
          else
            match parseFields fuel cs with
            | some (fs, r) => some (.obj fs, r)
            | none => none
      else if c = '-' ∨ c.isDigit then
        match parseNum (c :: cs) with
        | some (n, r) => some (.num n, r)
        | none => none
      else none

/-- One or more comma-separated values followed by `]`. -/
def parseItems : Nat → List Char → Option (List Json × List Char)
  | 0, _ => none
  | fuel + 1, s =>
    match parseVal fuel s with
    | none => none
    | some (v, r) =>
      match skipWs r with
      | [] => none
      | d :: ds =>
        if d = ',' then
          match parseItems fuel (skipWs ds) with
          | some (vs, r3) => some (v :: vs, r3)
          | none => none
        else if d = ']' then some ([v], ds)
        else none

/-- One or more `"key": value` fields followed by `}`. -/
def parseFields : Nat → List Char →
    Option (List (String × Json) × List Char)
  | 0, _ => none
  | fuel + 1, s =>
    match skipWs s with
    | [] => none
    | c :: cs =>
      if c ≠ '"' then none
      else
      match parseStringBody cs with
      | none => none
      | some (k, r) =>
        match skipWs r with
        | [] => none
        | d :: ds =>
          if d = ':' then
            match parseVal fuel (skipWs ds) with
            | none => none
            | some (v, r3) =>
              match skipWs r3 with
              | [] => none
              | e :: es =>
                if e = ',' then
                  match parseFields fuel (skipWs es) with
                  | some (fs, r5) => some ((String.mk k, v) :: fs, r5)
                  | none => none
                else if e = '\x7d' then some ([(String.mk k, v)], es)
                else none
          else none

end

/-- `json.load` / `json.loads` (and `requests.Response.json`): parse one
value and require only whitespace after it. -/
def loads (s : List Char) : Option Json :=
  match parseVal (s.length + 1) s with
  | some (v, r) => if (skipWs r).isEmpty then some v else none
  | none => none

/-- `ORCID._fetch(url, output_file_path)` restricted to what reaches the
cache file: the response body is parsed (`resp.json()`) and the parsed
value is re-serialized into the file (`json.dump(data, output_file)`);
`none` models the exception when the body is not JSON. -/
def fetchWrittenBytes (responseBody : List Char) : Option (List Char) :=
  (loads responseBody).map dumpsL

/-- `ORCID._read(input_file_path)`: parse the cache file. -/
def readCache (fileBytes : List Char) : Option Json :=
  loads fileBytes

theorem natCharsAux_acc : ∀ (fuel n : Nat) (acc : List Char),
    natCharsAux fuel n acc = natCharsAux fuel n [] ++ acc := by
  intro fuel
  induction fuel with
  | zero => intro n acc; rfl
  | succ f ih =>
    intro n acc
    simp only [natCharsAux]
    by_cases h : n < 10
    · rw [if_pos h, if_pos h]
      rfl
    · rw [if_neg h, if_neg h, ih (n / 10) (Nat.digitChar (n % 10) :: acc),
        ih (n / 10) [Nat.digitChar (n % 10)], List.append_assoc]
      rfl

theorem natCharsAux_irrel : ∀ (fuel : Nat) (n fuel' : Nat), n < fuel →
    n < fuel' → natCharsAux fuel n [] = natCharsAux fuel' n [] := by
  intro fuel
  induction fuel with
  | zero => intro n fuel' h; omega
  | succ f ih =>
    intro n fuel' h h'
    cases fuel' with
    | zero => omega
    | succ f' =>
      simp only [natCharsAux]
      by_cases h10 : n < 10
      · rw [if_pos h10, if_pos h10]
      · rw [if_neg h10, if_neg h10,
          natCharsAux_acc f (n / 10), natCharsAux_acc f' (n / 10),
          ih (n / 10) f' (by omega) (by omega)]

theorem digitChar_isDigit (m : Nat) (h : m < 10) :
    (Nat.digitChar m).isDigit = true := by
  interval_cases m <;> decide

theorem digitChar_val (m : Nat) (h : m < 10) :
    (Nat.digitChar m).toNat - '0'.toNat = m := by
  interval_cases m <;> decide

theorem natCharsAux_digits : ∀ (fuel n : Nat), n < fuel →
    ∀ c ∈ natCharsAux fuel n [], c.isDigit = true := by
  intro fuel
  induction fuel with
  | zero => intro n h; omega
  | succ f ih =>
    intro n h c hc
    simp only [natCharsAux] at hc
    by_cases h10 : n < 10
    · rw [if_pos h10] at hc
      simp at hc
      rw [hc]
      exact digitChar_isDigit _ (Nat.mod_lt _ (by omega))
    · rw [if_neg h10, natCharsAux_acc] at hc
      rcases List.mem_append.mp hc with hm | hm
      · exact ih (n / 10) (by omega) c hm
      · simp at hm
        rw [hm]
        exact digitChar_isDigit _ (Nat.mod_lt _ (by omega))

theorem natChars_digits (n : Nat) : ∀ c ∈ natChars n, c.isDigit = true :=
  natCharsAux_digits (n + 1) n (by omega)

theorem natCharsAux_ne_nil (fuel n : Nat) (h : n < fuel) :
    natCharsAux fuel n [] ≠ [] := by
  cases fuel with
  | zero => omega
  | succ f =>
    simp only [natCharsAux]
    by_cases h10 : n < 10
    · rw [if_pos h10]
      simp
    · rw [if_neg h10, natCharsAux_acc]
      simp

theorem digitsToNat_natCharsAux : ∀ (n fuel : Nat), n < fuel →
    digitsToNat (natCharsAux fuel n []) = n := by
  intro n
  induction n using Nat.strongRecOn with
  | _ n ih =>
    intro fuel h
    cases fuel with
    | zero => omega
    | succ f =>
      simp only [natCharsAux]
      by_cases h10 : n < 10
      · rw [if_pos h10]
        simp only [digitsToNat, List.foldl]
        rw [digitChar_val _ (Nat.mod_lt _ (by omega))]
        omega
      · rw [if_neg h10, natCharsAux_acc]
        simp only [digitsToNat, List.foldl_append, List.foldl]
        have hrec : digitsToNat (natCharsAux f (n / 10) []) = n / 10 := by
          rw [natCharsAux_irrel f (n / 10) (n / 10 + 1) (by omega)
            (by omega)]
          exact ih (n / 10) (by omega) (n / 10 + 1) (by omega)
        simp only [digitsToNat] at hrec
        rw [hrec, digitChar_val _ (Nat.mod_lt _ (by omega))]
        omega

theorem digitsToNat_natChars (n : Nat) : digitsToNat (natChars n) = n :=
  digitsToNat_natCharsAux n (n + 1) (by omega)

/-- Characters that `json.dump` writes without escaping: printable ASCII. -/
def simpleChar (c : Char) : Bool :=
  0x20 ≤ c.toNat && c.toNat ≤ 0x7e

/-- A string of printable ASCII characters. -/
def simpleStr (s : String) : Bool :=
  s.data.all simpleChar

mutual

/-- JSON values whose strings (including object keys) are printable
ASCII — the fragment the round-trip theorem covers. -/
def simpleJson : Json → Bool
  | .null => true
  | .bool _ => true
  | .num _ => true
  | .str s => simpleStr s
  | .arr xs => simpleItems xs
  | .obj fs => simpleFields fs

/-- `simpleJson` on every element. -/
def simpleItems : List Json → Bool
  | [] => true
  | x :: xs => simpleJson x && simpleItems xs

/-- `simpleStr` keys and `simpleJson` values. -/
def simpleFields : List (String × Json) → Bool
  | [] => true
  | (k, v) :: fs => simpleStr k && simpleJson v && simpleFields fs

end

theorem takeWhile_append_all (p : Char → Bool) :
    ∀ (a rest : List Char), (∀ c ∈ a, p c = true) →
      (∀ c cs, rest = c :: cs → p c = false) →
      (a ++ rest).takeWhile p = a ∧ (a ++ rest).dropWhile p = rest := by
  intro a
  induction a with
  | nil =>
    intro rest _ hr
    cases rest with
    | nil => simp
    | cons c cs =>
      have := hr c cs rfl
      simp [List.takeWhile_cons, List.dropWhile_cons, this]
  | cons x xs ih =>
    intro rest ha hr
    have hx := ha x (by simp)
    have := ih rest (fun c hc => ha c (by simp [hc])) hr
    simp [List.takeWhile_cons, List.dropWhile_cons, hx, this.1, this.2]

/-- The remainder after a serialized value never starts with a digit. -/
def noDigitStart (rest : List Char) : Prop :=
  ∀ c cs, rest = c :: cs → c.isDigit = false

theorem parseNum_intChars (n : Int) (rest : List Char)
    (h : noDigitStart rest) :
    parseNum (intChars n ++ rest) = some (n, rest) := by
  by_cases hn : n < 0
  · rw [intChars, if_pos hn]
    obtain ⟨d, ds, hnat⟩ : ∃ d ds, natChars n.natAbs = d :: ds := by
      cases hh : natChars n.natAbs with
      | nil => exact absurd hh (natCharsAux_ne_nil _ _ (by omega))
      | cons d ds => exact ⟨d, ds, rfl⟩
    simp only [List.cons_append, parseNum]
    rw [if_pos trivial]
    have htw := takeWhile_append_all Char.isDigit (natChars n.natAbs) rest
      (natChars_digits n.natAbs) h
    simp only [htw.1, htw.2]
    rw [if_neg (by rw [hnat]; simp)]
    rw [digitsToNat_natChars]
    have hval : -(n.natAbs : Int) = n := by omega
    rw [hval]
  · rw [intChars, if_neg hn]
    obtain ⟨d, ds, hnat⟩ : ∃ d ds, natChars n.toNat = d :: ds := by
      cases hh : natChars n.toNat with
      | nil => exact absurd hh (natCharsAux_ne_nil _ _ (by omega))
      | cons d ds => exact ⟨d, ds, rfl⟩
    have hd : d.isDigit = true := by
      apply natChars_digits n.toNat
      rw [hnat]
      simp
    rw [hnat, List.cons_append]
    simp only [parseNum]
    rw [if_neg (fun hdm : d = '-' =>
      by rw [hdm] at hd; exact absurd hd (by decide))]
    rw [← List.cons_append, ← hnat]
    have htw := takeWhile_append_all Char.isDigit (natChars n.toNat) rest
      (natChars_digits n.toNat) h
    simp only [htw.1, htw.2]
    rw [if_neg (by rw [hnat]; simp)]
    rw [digitsToNat_natChars]
    have hval : (n.toNat : Int) = n := by omega
    rw [hval]

theorem parseStringBody_escape : ∀ (s rest : List Char),
    (∀ c ∈ s, simpleChar c = true) →
    parseStringBody (escapeChars s ++ ('"' :: rest)) = some (s, rest) := by
  intro s
  induction s with
  | nil =>
    intro rest _
    rw [show escapeChars [] ++ ('"' :: rest) = '"' :: rest from rfl]
    rw [parseStringBody.eq_def]
    dsimp only
    rw [if_pos rfl]
  | cons c cs ih =>
    intro rest hs
    have hc : simpleChar c = true := hs c (by simp)
    have hcs : ∀ x ∈ cs, simpleChar x = true :=
      fun x hx => hs x (by simp [hx])
    rw [show escapeChars (c :: cs) = escapeChar c ++ escapeChars cs from by
      simp [escapeChars]]
    by_cases hq : c = '"'
    · subst hq
      rw [show escapeChar '"' = ['\\', '"'] from by rfl]
      simp only [List.cons_append, List.append_assoc, List.nil_append]
      rw [parseStringBody.eq_def]
      dsimp only
      rw [if_neg (by decide), if_pos rfl, if_neg (by decide),
        show unescapeChar '"' = some '"' from by rfl]
      dsimp only
      rw [ih rest hcs]
    · by_cases hb : c = '\\'
      · subst hb
        rw [show escapeChar '\\' = ['\\', '\\'] from by rfl]
        simp only [List.cons_append, List.append_assoc, List.nil_append]
        rw [parseStringBody.eq_def]
        dsimp only
        rw [if_neg (by decide), if_pos rfl, if_neg (by decide),
          show unescapeChar '\\' = some '\\' from by rfl]
        dsimp only
        rw [ih rest hcs]
      · have hrange : 0x20 ≤ c.toNat ∧ c.toNat ≤ 0x7e := by
          simp [simpleChar] at hc
          exact hc
        have hplain : escapeChar c = [c] := by
          rw [escapeChar, if_neg hq, if_neg hb,
            if_neg (fun h => by subst h; simp at hrange),
            if_neg (fun h => by subst h; simp at hrange),
            if_neg (fun h => by subst h; simp at hrange),
            if_neg (fun h => by subst h; simp at hrange),
            if_neg (fun h => by subst h; simp at hrange),
            if_neg (by omega)]
        rw [hplain]
        simp only [List.cons_append, List.nil_append]
        rw [parseStringBody.eq_def]
        dsimp only
        rw [if_neg hq, if_neg hb, ih rest hcs]

theorem skipWs_cons_not {c : Char} (t : List Char)
    (h : isJsonWs c = false) : skipWs (c :: t) = c :: t := by
  simp [skipWs, List.dropWhile_cons, h]

theorem skipWs_cons_ws {c : Char} (t : List Char)
    (h : isJsonWs c = true) : skipWs (c :: t) = skipWs t := by
  simp [skipWs, List.dropWhile_cons, h]

theorem isDigit_not_special {d : Char} (hd : d.isDigit = true) :
    isJsonWs d = false ∧ d ≠ ']' ∧ d ≠ '\x7d' ∧ d ≠ ',' ∧ d ≠ 'n' ∧
    d ≠ 't' ∧ d ≠ 'f' ∧ d ≠ '"' ∧ d ≠ '[' ∧ d ≠ '\x7b' := by
  refine ⟨?_, ?_, ?_, ?_, ?_, ?_, ?_, ?_, ?_, ?_⟩
  · cases hw : isJsonWs d with
    | false => rfl
    | true =>
      simp only [isJsonWs, Bool.or_eq_true, decide_eq_true_eq] at hw
      rcases hw with ((h | h) | h) | h <;>
        (subst h; exact absurd hd (by decide))
  all_goals exact fun h => by subst h; exact absurd hd (by decide)

theorem dumpsL_head_facts : ∀ (v : Json), ∃ c t, dumpsL v = c :: t ∧
    isJsonWs c = false ∧ c ≠ ']' ∧ c ≠ '\x7d' ∧ c ≠ ',' := by
  intro v
  cases v with
  | null => exact ⟨'n', _, rfl, by decide, by decide, by decide, by decide⟩
  | bool b =>
    cases b with
    | true => exact ⟨'t', _, rfl, by decide, by decide, by decide, by decide⟩
    | false => exact ⟨'f', _, rfl, by decide, by decide, by decide, by decide⟩
  | str s => exact ⟨'"', _, rfl, by decide, by decide, by decide, by decide⟩
  | arr xs => exact ⟨'[', _, rfl, by decide, by decide, by decide, by decide⟩
  | obj fs =>
    exact ⟨'\x7b', _, rfl, by decide, by decide, by decide, by decide⟩
  | num n =>
    rw [show dumpsL (Json.num n) = intChars n from rfl, intChars]
    by_cases hn : n < 0
    · rw [if_pos hn]
      exact ⟨'-', _, rfl, by decide, by decide, by decide, by decide⟩
    · rw [if_neg hn]
      obtain ⟨d, ds, hnat⟩ : ∃ d ds, natChars n.toNat = d :: ds := by
        cases hh : natChars n.toNat with
        | nil => exact absurd hh (natCharsAux_ne_nil _ _ (by omega))
        | cons d ds => exact ⟨d, ds, rfl⟩
      have hd : d.isDigit = true := by
        apply natChars_digits n.toNat
        rw [hnat]
        simp
      obtain ⟨h1, h2, h3, h4, -⟩ := isDigit_not_special hd
      exact ⟨d, ds, hnat, h1, h2, h3, h4⟩

theorem dumpsItems_cons_head (x : Json) (xs : List Json) :
    ∃ c t, dumpsItems (x :: xs) = c :: t ∧ isJsonWs c = false ∧
      c ≠ ']' ∧ c ≠ '\x7d' ∧ c ≠ ',' := by
  obtain ⟨u, hu⟩ : ∃ u, dumpsItems (x :: xs) = dumpsL x ++ u := by
    cases xs with
    | nil => exact ⟨[], by simp [dumpsItems]⟩
    | cons y ys => exact ⟨_, rfl⟩
  obtain ⟨c, t, hct, h1, h2, h3, h4⟩ := dumpsL_head_facts x
  exact ⟨c, t ++ u, by rw [hu, hct, List.cons_append], h1, h2, h3, h4⟩

theorem dumpsFields_cons_head (kv : String × Json)
    (fs : List (String × Json)) :
    ∃ t, dumpsFields (kv :: fs) = '"' :: t := by
  obtain ⟨k, v⟩ := kv
  cases fs with
  | nil =>
    refine ⟨escapeChars k.data ++ ['"'] ++ (':' :: ' ' :: dumpsL v), ?_⟩
    rw [show dumpsFields [(k, v)]
        = dumpsKey k ++ (':' :: ' ' :: dumpsL v) from rfl,
      show dumpsKey k = '"' :: (escapeChars k.data ++ ['"']) from rfl]
    simp [List.cons_append, List.append_assoc]
  | cons g gs =>
    refine ⟨escapeChars k.data ++ ['"'] ++ ((':' :: ' ' :: dumpsL v)
      ++ (',' :: ' ' :: dumpsFields (g :: gs))), ?_⟩
    rw [show dumpsFields ((k, v) :: g :: gs)
        = dumpsKey k ++ (':' :: ' ' :: dumpsL v)
          ++ (',' :: ' ' :: dumpsFields (g :: gs)) from rfl,
      show dumpsKey k = '"' :: (escapeChars k.data ++ ['"']) from rfl]
    simp [List.cons_append, List.append_assoc]


theorem parse_dumps : ∀ (fuel : Nat),
    (∀ (v : Json) (rest : List Char), simpleJson v = true →
      (dumpsL v).length ≤ fuel → noDigitStart rest →
      parseVal fuel (dumpsL v ++ rest) = some (v, rest)) ∧
    (∀ (xs : List Json) (rest : List Char), simpleItems xs = true →
      (dumpsItems xs).length < fuel → xs ≠ [] →
      parseItems fuel (dumpsItems xs ++ (']' :: rest)) = some (xs, rest)) ∧
    (∀ (fs : List (String × Json)) (rest : List Char),
      simpleFields fs = true → (dumpsFields fs).length < fuel → fs ≠ [] →
      parseFields fuel (dumpsFields fs ++ ('\x7d' :: rest))
        = some (fs, rest)) := by
  intro fuel
  induction fuel with
  | zero =>
    refine ⟨?_, ?_, ?_⟩
    · intro v rest _ hlen _
      obtain ⟨c, t, hct, -⟩ := dumpsL_head_facts v
      rw [hct] at hlen
      simp at hlen
    · intro xs rest _ hlen _
      omega
    · intro fs rest _ hlen _
      omega
  | succ fuel ih =>
    obtain ⟨ihv, ihi, ihf⟩ := ih
    refine ⟨?_, ?_, ?_⟩
    · intro v rest hsimple hlen hnd
      cases v with
      | null =>
        rw [show dumpsL Json.null ++ rest
          = 'n' :: 'u' :: 'l' :: 'l' :: rest from rfl]
        rw [parseVal.eq_def]
        dsimp only
        rw [skipWs_cons_not _ (by decide)]
        dsimp only
        rw [if_pos rfl]
        rfl
      | bool b =>
        cases b with
        | true =>
          rw [show dumpsL (Json.bool true) ++ rest
            = 't' :: 'r' :: 'u' :: 'e' :: rest from rfl]
          rw [parseVal.eq_def]
          dsimp only
          rw [skipWs_cons_not _ (by decide)]
          dsimp only
          rw [if_neg (by decide), if_pos rfl]
          rfl
        | false =>
          rw [show dumpsL (Json.bool false) ++ rest
            = 'f' :: 'a' :: 'l' :: 's' :: 'e' :: rest from rfl]
          rw [parseVal.eq_def]
          dsimp only
          rw [skipWs_cons_not _ (by decide)]
          dsimp only
          rw [if_neg (by decide), if_neg (by decide), if_pos rfl]
          rfl
      | num n =>
        by_cases hn : n < 0
        · have hform : dumpsL (Json.num n) = '-' :: natChars n.natAbs := by
            rw [show dumpsL (Json.num n) = intChars n from rfl, intChars,
              if_pos hn]
          rw [hform, List.cons_append, parseVal.eq_def]
          dsimp only
          rw [skipWs_cons_not _ (by decide)]
          dsimp only
          rw [if_neg (by decide), if_neg (by decide), if_neg (by decide),
            if_neg (by decide), if_neg (by decide), if_neg (by decide),
            if_pos (Or.inl rfl)]
          rw [show '-' :: (natChars n.natAbs ++ rest)
              = intChars n ++ rest from by
            rw [← List.cons_append, ← hform]
            rfl]
          rw [parseNum_intChars n rest hnd]
        · obtain ⟨d, ds, hnat⟩ : ∃ d ds, natChars n.toNat = d :: ds := by
            cases hh : natChars n.toNat with
            | nil => exact absurd hh (natCharsAux_ne_nil _ _ (by omega))
            | cons d ds => exact ⟨d, ds, rfl⟩
          have hd : d.isDigit = true := by
            apply natChars_digits n.toNat
            rw [hnat]
            simp
          obtain ⟨hw1, -, -, -, hd1, hd2, hd3, hd4, hd5, hd6⟩ :=
            isDigit_not_special hd
          have hform : dumpsL (Json.num n) = d :: ds := by
            rw [show dumpsL (Json.num n) = intChars n from rfl, intChars,
              if_neg hn, hnat]
          rw [hform, List.cons_append, parseVal.eq_def]
          dsimp only
          rw [skipWs_cons_not _ hw1]
          dsimp only
          rw [if_neg hd1, if_neg hd2, if_neg hd3, if_neg hd4, if_neg hd5,
            if_neg hd6, if_pos (Or.inr hd)]
          rw [show d :: (ds ++ rest) = intChars n ++ rest from by
            rw [← List.cons_append, ← hnat, intChars, if_neg hn]]
          rw [parseNum_intChars n rest hnd]
      | str s =>
        rw [show dumpsL (Json.str s) ++ rest
            = '"' :: (escapeChars s.data ++ ('"' :: rest)) from by
          rw [show dumpsL (Json.str s)
            = '"' :: (escapeChars s.data ++ ['"']) from rfl]
          simp [List.cons_append, List.append_assoc]]
        rw [parseVal.eq_def]
        dsimp only
        rw [skipWs_cons_not _ (by decide)]
        dsimp only
        rw [if_neg (by decide), if_neg (by decide), if_neg (by decide),
          if_pos rfl]
        have hsim : ∀ c ∈ s.data, simpleChar c = true := by
          rw [show simpleJson (Json.str s) = simpleStr s from rfl,
            simpleStr] at hsimple
          exact fun c hc => List.all_eq_true.mp hsimple c hc
        rw [parseStringBody_escape s.data rest hsim]
      | arr xs =>
        cases xs with
        | nil =>
          rw [show dumpsL (Json.arr []) ++ rest
            = '[' :: (']' :: rest) from rfl]
          rw [parseVal.eq_def]
          dsimp only
          rw [skipWs_cons_not _ (by decide)]
          dsimp only
          rw [if_neg (by decide), if_neg (by decide), if_neg (by decide),
            if_neg (by decide), if_pos rfl]
          rw [skipWs_cons_not _ (by decide)]
          dsimp only
          rw [if_pos rfl]
        | cons x xs2 =>
          rw [show dumpsL (Json.arr (x :: xs2)) ++ rest
              = '[' :: (dumpsItems (x :: xs2) ++ (']' :: rest)) from by
            rw [show dumpsL (Json.arr (x :: xs2))
              = '[' :: (dumpsItems (x :: xs2) ++ [']']) from rfl]
            simp [List.cons_append, List.append_assoc]]
          rw [parseVal.eq_def]
          dsimp only
          rw [skipWs_cons_not _ (by decide)]
          dsimp only
          rw [if_neg (by decide), if_neg (by decide), if_neg (by decide),
            if_neg (by decide), if_pos rfl]
          obtain ⟨c0, t0, hct, hws0, hbr0, -, -⟩ :=
            dumpsItems_cons_head x xs2
          rw [show skipWs (dumpsItems (x :: xs2) ++ (']' :: rest))
              = c0 :: (t0 ++ (']' :: rest)) from by
            rw [hct, List.cons_append, skipWs_cons_not _ hws0]]
          dsimp only
          rw [if_neg hbr0]
          have hlen2 : (dumpsItems (x :: xs2)).length < fuel := by
            rw [show dumpsL (Json.arr (x :: xs2))
              = '[' :: (dumpsItems (x :: xs2) ++ [']']) from rfl] at hlen
            simp only [List.length_cons, List.length_append,
              List.length_singleton] at hlen
            omega
          rw [ihi (x :: xs2) rest hsimple hlen2 (by simp)]
      | obj fs =>
        cases fs with
        | nil =>
          rw [show dumpsL (Json.obj []) ++ rest
            = '\x7b' :: ('\x7d' :: rest) from rfl]
          rw [parseVal.eq_def]
          dsimp only
          rw [skipWs_cons_not _ (by decide)]
          dsimp only
          rw [if_neg (by decide), if_neg (by decide), if_neg (by decide),
            if_neg (by decide), if_neg (by decide), if_pos rfl]
          rw [skipWs_cons_not _ (by decide)]
          dsimp only
          rw [if_pos rfl]
        | cons kv fs2 =>
          rw [show dumpsL (Json.obj (kv :: fs2)) ++ rest
              = '\x7b' :: (dumpsFields (kv :: fs2) ++ ('\x7d' :: rest))
              from by
            rw [show dumpsL (Json.obj (kv :: fs2))
              = '\x7b' :: (dumpsFields (kv :: fs2) ++ ['\x7d']) from rfl]
            simp [List.cons_append, List.append_assoc]]
          rw [parseVal.eq_def]
          dsimp only
          rw [skipWs_cons_not _ (by decide)]
          dsimp only
          rw [if_neg (by decide), if_neg (by decide), if_neg (by decide),
            if_neg (by decide), if_neg (by decide), if_pos rfl]
          obtain ⟨t0, hct⟩ := dumpsFields_cons_head kv fs2
          rw [show skipWs (dumpsFields (kv :: fs2) ++ ('\x7d' :: rest))
              = '"' :: (t0 ++ ('\x7d' :: rest)) from by
            rw [hct, List.cons_append, skipWs_cons_not _ (by decide)]]
          dsimp only
          rw [if_neg (by decide)]
          have hlen2 : (dumpsFields (kv :: fs2)).length < fuel := by
            rw [show dumpsL (Json.obj (kv :: fs2))
              = '\x7b' :: (dumpsFields (kv :: fs2) ++ ['\x7d'])
              from rfl] at hlen
            simp only [List.length_cons, List.length_append,
              List.length_singleton] at hlen
            omega
          rw [ihf (kv :: fs2) rest hsimple hlen2 (by simp)]
    · intro xs rest hsimple hlen hne
      cases xs with
      | nil => exact absurd rfl hne
      | cons x xs2 =>
        have hsx : simpleJson x = true := by
          rw [show simpleItems (x :: xs2)
            = (simpleJson x && simpleItems xs2) from rfl] at hsimple
          exact ((Bool.and_eq_true _ _).mp hsimple).1
        have hsxs : simpleItems xs2 = true := by
          rw [show simpleItems (x :: xs2)
            = (simpleJson x && simpleItems xs2) from rfl] at hsimple
          exact ((Bool.and_eq_true _ _).mp hsimple).2
        cases xs2 with
        | nil =>
          have hlx : (dumpsL x).length ≤ fuel := by
            rw [show dumpsItems [x] = dumpsL x from rfl] at hlen
            omega
          rw [show dumpsItems [x] = dumpsL x from rfl, parseItems.eq_def]
          dsimp only
          rw [ihv x (']' :: rest) hsx hlx
            (fun c cs h => by cases h; rfl)]
          dsimp only
          rw [skipWs_cons_not _ (by decide)]
          dsimp only
          rw [if_neg (by decide), if_pos rfl]
        | cons y ys =>
          have hsplit : dumpsItems (x :: y :: ys) ++ (']' :: rest)
              = dumpsL x ++ (',' :: ' ' ::
                (dumpsItems (y :: ys) ++ (']' :: rest))) := by
            rw [show dumpsItems (x :: y :: ys)
              = dumpsL x ++ (',' :: ' ' :: dumpsItems (y :: ys)) from rfl]
            simp [List.cons_append, List.append_assoc]
          have hlx : (dumpsL x).length ≤ fuel := by
            rw [show dumpsItems (x :: y :: ys)
              = dumpsL x ++ (',' :: ' ' :: dumpsItems (y :: ys))
              from rfl] at hlen
            simp only [List.length_append, List.length_cons] at hlen
            omega
          have hly : (dumpsItems (y :: ys)).length < fuel := by
            rw [show dumpsItems (x :: y :: ys)
              = dumpsL x ++ (',' :: ' ' :: dumpsItems (y :: ys))
              from rfl] at hlen
            simp only [List.length_append, List.length_cons] at hlen
            omega
          rw [hsplit, parseItems.eq_def]
          dsimp only
          rw [ihv x (',' :: ' ' :: (dumpsItems (y :: ys) ++ (']' :: rest)))
            hsx hlx (fun c cs h => by cases h; rfl)]
          dsimp only
          rw [skipWs_cons_not _ (by decide)]
          dsimp only
          rw [if_pos rfl, skipWs_cons_ws _ (by decide)]
          obtain ⟨c0, t0, hct, hws0, -, -, -⟩ := dumpsItems_cons_head y ys
          rw [show skipWs (dumpsItems (y :: ys) ++ (']' :: rest))
              = dumpsItems (y :: ys) ++ (']' :: rest) from by
            rw [hct, List.cons_append, skipWs_cons_not _ hws0,
              ← List.cons_append, ← hct]]
          rw [ihi (y :: ys) rest hsxs hly (by simp)]
    · intro fs rest hsimple hlen hne
      cases fs with
      | nil => exact absurd rfl hne
      | cons kv fs2 =>
        obtain ⟨k, v⟩ := kv
        have hsplit3 : simpleFields ((k, v) :: fs2)
            = (simpleStr k && simpleJson v && simpleFields fs2) := rfl
        rw [hsplit3] at hsimple
        have hsk : simpleStr k = true :=
          ((Bool.and_eq_true _ _).mp
            ((Bool.and_eq_true _ _).mp hsimple).1).1
        have hsv : simpleJson v = true :=
          ((Bool.and_eq_true _ _).mp
            ((Bool.and_eq_true _ _).mp hsimple).1).2
        have hsfs : simpleFields fs2 = true :=
          ((Bool.and_eq_true _ _).mp hsimple).2
        have hkchars : ∀ c ∈ k.data, simpleChar c = true := by
          rw [simpleStr] at hsk
          exact fun c hc => List.all_eq_true.mp hsk c hc
        have hkeylen : (dumpsKey k).length = (escapeChars k.data).length + 2
            := by
          rw [show dumpsKey k = '"' :: (escapeChars k.data ++ ['"'])
            from rfl]
          simp
        cases fs2 with
        | nil =>
          have hlv : (dumpsL v).length ≤ fuel := by
            rw [show dumpsFields [(k, v)]
              = dumpsKey k ++ (':' :: ' ' :: dumpsL v) from rfl] at hlen
            simp only [List.length_append, List.length_cons,
              hkeylen] at hlen
            omega
          rw [show dumpsFields [(k, v)] ++ ('\x7d' :: rest)
              = '"' :: (escapeChars k.data ++ ('"' :: (':' :: ' ' ::
                (dumpsL v ++ ('\x7d' :: rest))))) from by
            rw [show dumpsFields [(k, v)]
              = dumpsKey k ++ (':' :: ' ' :: dumpsL v) from rfl,
              show dumpsKey k = '"' :: (escapeChars k.data ++ ['"'])
              from rfl]
            simp [List.cons_append, List.append_assoc]]
          rw [parseFields.eq_def]
          dsimp only
          rw [skipWs_cons_not _ (by decide)]
          dsimp only
          rw [if_neg (by decide), parseStringBody_escape k.data _ hkchars]
          dsimp only
          rw [skipWs_cons_not _ (by decide)]
          dsimp only
          rw [if_pos rfl, skipWs_cons_ws _ (by decide)]
          obtain ⟨c0, t0, hct, hws0, -, -, -⟩ := dumpsL_head_facts v
          rw [show skipWs (dumpsL v ++ ('\x7d' :: rest))
              = dumpsL v ++ ('\x7d' :: rest) from by
            rw [hct, List.cons_append, skipWs_cons_not _ hws0,
              ← List.cons_append, ← hct]]
          rw [ihv v ('\x7d' :: rest) hsv hlv
            (fun c cs h => by cases h; rfl)]
          dsimp only
          rw [skipWs_cons_not _ (by decide)]
          dsimp only
          rw [if_neg (by decide), if_pos rfl]
        | cons g gs =>
          have hform : dumpsFields ((k, v) :: g :: gs)
              = dumpsKey k ++ (':' :: ' ' :: dumpsL v)
                ++ (',' :: ' ' :: dumpsFields (g :: gs)) := rfl
          have hlv : (dumpsL v).length ≤ fuel := by
            rw [hform] at hlen
            simp only [List.length_append, List.length_cons,
              hkeylen] at hlen
            omega
          have hlfs : (dumpsFields (g :: gs)).length < fuel := by
            rw [hform] at hlen
            simp only [List.length_append, List.length_cons,
              hkeylen] at hlen
            omega
          rw [show dumpsFields ((k, v) :: g :: gs) ++ ('\x7d' :: rest)
              = '"' :: (escapeChars k.data ++ ('"' :: (':' :: ' ' ::
                (dumpsL v ++ (',' :: ' ' ::
                  (dumpsFields (g :: gs) ++ ('\x7d' :: rest)))))))
              from by
            rw [hform,
              show dumpsKey k = '"' :: (escapeChars k.data ++ ['"'])
              from rfl]
            simp [List.cons_append, List.append_assoc]]
          rw [parseFields.eq_def]
          dsimp only
          rw [skipWs_cons_not _ (by decide)]
          dsimp only
          rw [if_neg (by decide), parseStringBody_escape k.data _ hkchars]
          dsimp only
          rw [skipWs_cons_not _ (by decide)]
          dsimp only
          rw [if_pos rfl, skipWs_cons_ws _ (by decide)]
          obtain ⟨c0, t0, hct, hws0, -, -, -⟩ := dumpsL_head_facts v
          rw [show skipWs (dumpsL v ++ (',' :: ' ' ::
              (dumpsFields (g :: gs) ++ ('\x7d' :: rest))))
              = dumpsL v ++ (',' :: ' ' ::
                (dumpsFields (g :: gs) ++ ('\x7d' :: rest))) from by
            rw [hct, List.cons_append, skipWs_cons_not _ hws0,
              ← List.cons_append, ← hct]]
          rw [ihv v (',' :: ' ' ::
              (dumpsFields (g :: gs) ++ ('\x7d' :: rest)))
            hsv hlv (fun c cs h => by cases h; rfl)]
          dsimp only
          rw [skipWs_cons_not _ (by decide)]
          dsimp only
          rw [if_pos rfl, skipWs_cons_ws _ (by decide)]
          obtain ⟨t1, hct1⟩ := dumpsFields_cons_head g gs
          rw [show skipWs (dumpsFields (g :: gs) ++ ('\x7d' :: rest))
              = dumpsFields (g :: gs) ++ ('\x7d' :: rest) from by
            rw [hct1, List.cons_append, skipWs_cons_not _ (by decide),
              ← List.cons_append, ← hct1]]
          rw [ihf (g :: gs) rest hsfs hlfs (by simp)]

theorem loads_dumps (v : Json) (h : simpleJson v = true) :
    loads (dumpsL v) = some v := by
  have hp := (parse_dumps ((dumpsL v).length + 1)).1 v [] h (by omega)
    (fun c cs h' => by cases h')
  rw [List.append_nil] at hp
  unfold loads
  rw [hp]
  rfl

/-- C2 counterexample: `ORCID._fetch` does not write the response bytes
through: for the response body `{"a":1}` the bytes written to the cache
file are `{"a": 1}` (the parsed value re-serialized by `json.dump` with
its default separators), which differ from the bytes received. -/
theorem fetch_not_byte_identical :
    fetchWrittenBytes "\x7b\"a\":1\x7d".data
      = some "\x7b\"a\": 1\x7d".data ∧
    "\x7b\"a\": 1\x7d".data ≠ "\x7b\"a\":1\x7d".data := by
  constructor
  · rfl
  · decide

/-- C2 (amended): the cache write stores the default `json.dump`
serialization of the parsed response rather than the received bytes, so a
cache-write followed by a cache-read reproduces an equal JSON value (for
values in the printable-ASCII fragment the model covers), though not
necessarily byte-identical content. -/
theorem fetch_cache_roundtrip (body : List Char) (v : Json)
    (hparse : loads body = some v) (hsimple : simpleJson v = true) :
    fetchWrittenBytes body = some (dumpsL v) ∧
    readCache (dumpsL v) = some v := by
  constructor
  · rw [fetchWrittenBytes, hparse]
    rfl
  · rw [readCache]
    exact loads_dumps v hsimple

/-- C2 witness: the round trip on the concrete body `{"a":1}`. -/
theorem fetch_cache_roundtrip_witness :
    fetchWrittenBytes "\x7b\"a\":1\x7d".data
      = some (dumpsL (Json.obj [("a", Json.num 1)])) ∧
    readCache (dumpsL (Json.obj [("a", Json.num 1)]))
      = some (Json.obj [("a", Json.num 1)]) :=
  fetch_cache_roundtrip "\x7b\"a\":1\x7d".data
    (Json.obj [("a", Json.num 1)]) (by rfl) (by rfl)
